import Mathlib

/-!
# Wi-Fi coexistence scenarios: station placement, port planning, flow reduction

A shallow embedding of the parts of the eight `scenario_*.cc` programs that are
not calls into the simulator: the ring placement loop, the destination-port
lists, and the loop that reduces the flow monitor's per-flow counters to
per-station throughput / delay / jitter.

Values of C++ type `double` are elements of an arbitrary linearly ordered field
`α` (`ℚ` for evaluation, `ℝ` where `std::cos` / `std::sin` are interpreted);
`uint16_t` / `uint32_t` values are natural numbers with the reduction modulo
`2 ^ 16` / `2 ^ 32` written out where the program performs arithmetic on them.
-/

namespace WifiCoex

/-! ## Data -/

/-- The three-component `ns3::Vector` handed to the position allocator. -/
structure Vector (α : Type) where
  x : α
  y : α
  z : α

/-- One entry of `stats` as the reduction loop sees it: the destination port
that `classifier->FindFlow (iter->first)` reports (a `uint16_t`) and the four
counters read from `iter->second` (`rxPackets` is a `uint32_t`, `rxBytes` a
`uint64_t`, the two sums are read through `GetSeconds ()`). -/
structure FlowRecord (α : Type) where
  destinationPort : Nat
  rxPackets : Nat
  rxBytes : Nat
  delaySum : α
  jitterSum : α

/-- The three per-station results `throughput`, `avgDelay`, `avgJitter`. -/
structure Metric (α : Type) where
  throughput : α
  avgDelay : α
  avgJitter : α

/-- The initial value `0.0` of all three results. -/
def Metric.zero {α : Type} [Zero α] : Metric α := ⟨0, 0, 0⟩

/-- Subtraction of two `uint32_t` values. -/
def u32Sub (a b : Nat) : Nat := (a + (2 ^ 32 - b % 2 ^ 32)) % 2 ^ 32

/-! ## The guarded update of one station's results -/

section Reduction

variable {α : Type} [LinearOrderedField α]

/-- The block executed when a flow's destination port matches a station:
```
uint32_t rx = iter->second.rxPackets;
if (rx > 0) {
    throughput = (iter->second.rxBytes * 8.0) / (simulationTime * 1e6);
    avgDelay = iter->second.delaySum.GetSeconds () / rx;
    if (rx > 1) { avgJitter = iter->second.jitterSum.GetSeconds () / (rx - 1); }
}
```
`m` holds the station's three variables before the block. -/
def updateMetric (simulationTime : α) (flow : FlowRecord α) (m : Metric α) : Metric α :=
  let rx := flow.rxPackets
  if 0 < rx then
    let throughput := ((flow.rxBytes : α) * 8) / (simulationTime * 1000000)
    let avgDelay := flow.delaySum / (rx : α)
    if 1 < rx then
      ⟨throughput, avgDelay, flow.jitterSum / ((u32Sub rx 1 : Nat) : α)⟩
    else
      ⟨throughput, avgDelay, m.avgJitter⟩
  else
    m

/-- Which of the three quotients of the block a division belongs to. -/
inductive Quot3 where
  | throughput
  | delay
  | jitter
deriving DecidableEq, Repr

/-- One evaluated division: which quotient, its dividend and its divisor. -/
structure DivEval (α : Type) where
  which : Quot3
  dividend : α
  divisor : α

/-- The divisions the block of `updateMetric` evaluates for a flow, in program
order (same guards as `updateMetric`). -/
def updateMetricDivs (simulationTime : α) (flow : FlowRecord α) : List (DivEval α) :=
  let rx := flow.rxPackets
  if 0 < rx then
    let d1 : DivEval α := ⟨Quot3.throughput, (flow.rxBytes : α) * 8, simulationTime * 1000000⟩
    let d2 : DivEval α := ⟨Quot3.delay, flow.delaySum, (rx : α)⟩
    if 1 < rx then
      [d1, d2, ⟨Quot3.jitter, flow.jitterSum, ((u32Sub rx 1 : Nat) : α)⟩]
    else
      [d1, d2]
  else
    []

/-! ## One iteration of the reduction loop, in its three shapes -/

/-- The `if / else if` chain over the scenario's ports
(`scenario_single_be`, `scenario_coex_ax_2sta`, `scenario_coex_ac_be`,
`scenario_coex_n_ax_dualsta`, `scenario_coex_ac_ax_quadsta`): the first port
equal to the flow's destination port has its variables updated, later
branches are not tried. The named variables `…A`, `…B`, … are the entries of
the metric list in the order of the chain. -/
def chainStep (simulationTime : α) :
    List Nat → FlowRecord α → List (Metric α) → List (Metric α)
  | p :: ps, flow, m :: ms =>
    if flow.destinationPort = p then updateMetric simulationTime flow m :: ms
    else m :: chainStep simulationTime ps flow ms
  | _, _, ms => ms

/-- The inner loop `for (uint32_t i = 0; i < staCount; ++i) if
(t.destinationPort == ports[i]) { … }` over the ring stations
(`scenario_coex_be_3sta`, and after the legacy test in the two `decsta`
scenarios): every index is tested, there is no `break`. The port vector and
the result vectors all have `staCount` entries and are walked in step. -/
def ringScan (simulationTime : α) :
    List Nat → FlowRecord α → List (Metric α) → List (Metric α)
  | p :: ps, flow, m :: ms =>
    (if flow.destinationPort = p then updateMetric simulationTime flow m else m)
      :: ringScan simulationTime ps flow ms
  | _, _, ms => ms

/-- The loop body of `scenario_coex_a_ax_decsta` / `scenario_coex_a_be_decsta`:
the legacy port is tested first and ends the iteration with `continue`;
otherwise the ring ports are scanned. The state is the legacy station's
variables and the ring stations' vectors. -/
def decstaStep (simulationTime : α) (portLegacy : Nat) (ringPorts : List Nat)
    (flow : FlowRecord α) (st : Metric α × List (Metric α)) : Metric α × List (Metric α) :=
  if flow.destinationPort = portLegacy then
    (updateMetric simulationTime flow st.1, st.2)
  else
    (st.1, ringScan simulationTime ringPorts flow st.2)

/-- The three shapes of the reduction loop with the ports they test. -/
inductive Scenario where
  | chain (ports : List Nat)
  | legacyRing (portLegacy : Nat) (ringPorts : List Nat)
  | ring (ports : List Nat)

/-- The stations' destination ports in the order of the results block. -/
def Scenario.ports : Scenario → List Nat
  | .chain ports => ports
  | .legacyRing portLegacy ringPorts => portLegacy :: ringPorts
  | .ring ports => ports

/-- One iteration of the reduction loop on the list of all stations' results
(for `legacyRing` the legacy station first, then the ring stations). -/
def Scenario.step (simulationTime : α) :
    Scenario → FlowRecord α → List (Metric α) → List (Metric α)
  | .chain ports, flow, ms => chainStep simulationTime ports flow ms
  | .legacyRing portLegacy ringPorts, flow, m :: ms =>
    let st := decstaStep simulationTime portLegacy ringPorts flow (m, ms)
    st.1 :: st.2
  | .legacyRing _ _, _, [] => []
  | .ring ports, flow, ms => ringScan simulationTime ports flow ms

/-- The loop over `stats` from a given state of the results. -/
def Scenario.reduceFrom (simulationTime : α) (sc : Scenario)
    (flows : List (FlowRecord α)) (ms : List (Metric α)) : List (Metric α) :=
  flows.foldl (fun acc flow => sc.step simulationTime flow acc) ms

/-- The whole reduction: every result starts at `0.0`, then the loop over
`stats` runs. -/
def Scenario.reduce (simulationTime : α) (sc : Scenario)
    (flows : List (FlowRecord α)) : List (Metric α) :=
  sc.reduceFrom simulationTime flows (List.replicate sc.ports.length Metric.zero)

/-- The effect of one flow on the results of the station with port `p`: the
guarded block when the flow's destination port is `p`, nothing otherwise. -/
def portUpdate (simulationTime : α) (flow : FlowRecord α) (p : Nat) (m : Metric α) : Metric α :=
  if flow.destinationPort = p then updateMetric simulationTime flow m else m

/-- The results of the station with port `p` after the flows have been
processed in order, starting from `m`. -/
def stationMetric (simulationTime : α) (p : Nat) (flows : List (FlowRecord α))
    (m : Metric α) : Metric α :=
  flows.foldl (fun acc flow => portUpdate simulationTime flow p acc) m

end Reduction

/-! ## Destination ports -/

/-- The loop `for (uint16_t basePort = b; basePort < b + staCount; ++basePort)
ports.push_back (basePort)`: `bound` is the value of `b + staCount` (an
`unsigned int`), `basePort` the 16-bit counter, `acc` the vector so far. The
result is `none` when the fuel runs out before the condition becomes false. -/
def portLoop (bound : Nat) : Nat → Nat → List Nat → Option (List Nat)
  | 0, _, _ => none
  | fuel + 1, basePort, acc =>
    if basePort < bound then
      portLoop bound fuel ((basePort + 1) % 2 ^ 16) (acc ++ [basePort])
    else
      some acc

/-- The port vector of `scenario_coex_a_ax_decsta` (`b = 9001`) and of
`scenario_coex_be_3sta` (`b = 9000`) for a station count `staCount`. -/
def loopPorts (b staCount fuel : Nat) : Option (List Nat) :=
  portLoop ((b + staCount) % 2 ^ 32) fuel (b % 2 ^ 16) []

/-- The port vector of `scenario_coex_a_be_decsta`:
`std::vector<uint16_t> bePorts (beStaCount); for (i …) bePorts[i] = 9001 + i;`
(the sum is an `unsigned int`, the store narrows it to 16 bits). -/
def bePorts (beStaCount : Nat) : List Nat :=
  (List.range beStaCount).foldl
    (fun v i => v.set i (((9001 + i) % 2 ^ 32) % 2 ^ 16)) (List.replicate beStaCount 0)

/-- The single port `port = 9000` of `scenario_single_be`. -/
def scenario_single_be : Scenario := .chain [9000]

/-- Ports `portA`, `portB` of `scenario_coex_ax_2sta`. -/
def scenario_coex_ax_2sta : Scenario := .chain [9000, 9001]

/-- Ports `portLegacy`, `portBe` of `scenario_coex_ac_be`. -/
def scenario_coex_ac_be : Scenario := .chain [9000, 9001]

/-- Ports `portA` … `portC` of `scenario_coex_n_ax_dualsta`. -/
def scenario_coex_n_ax_dualsta : Scenario := .chain [9000, 9001, 9002]

/-- Ports `portA` … `portE` of `scenario_coex_ac_ax_quadsta`. -/
def scenario_coex_ac_ax_quadsta : Scenario := .chain [9000, 9001, 9002, 9003, 9004]

/-- The scenario `scenario_coex_a_ax_decsta` with `portLegacy = 9000` and the
vector `axPorts` its port loop built. -/
def scenario_coex_a_ax_decsta (axPorts : List Nat) : Scenario := .legacyRing 9000 axPorts

/-- The scenario `scenario_coex_a_be_decsta` with `portLegacy = 9000` and
`bePorts` for `beStaCount` ring stations. -/
def scenario_coex_a_be_decsta (beStaCount : Nat) : Scenario :=
  .legacyRing 9000 (bePorts beStaCount)

/-- The scenario `scenario_coex_be_3sta` with the vector `ports` its port loop
built. -/
def scenario_coex_be_3sta (ports : List Nat) : Scenario := .ring ports

/-! ## Ring placement -/

section Placement

variable {α : Type} [Field α]

/-- The ring placement loop of the `coex` scenarios with an access point
position (`scenario_coex_a_ax_decsta`, `…a_be_decsta`, `…ac_ax_quadsta`,
`…ac_be`, `…n_ax_dualsta`):
```
for (uint32_t i = 0; i < staCount; ++i) {
    double theta = theta0 + twoPi * static_cast<double> (i) / static_cast<double> (staCount);
    double x = apPos.x + r * std::cos (theta);
    double y = apPos.y + r * std::sin (theta);
    positionAlloc->Add (Vector (x, y, apPos.z));
}
```
`cos`, `sin` stand for `std::cos`, `std::sin`; `twoPi`, `r`, `theta0` are the
constants of `main`; `alloc` is the allocator's list before the loop. -/
def ringPlacement (cos sin : α → α) (twoPi : α) (apPos : Vector α) (r theta0 : α)
    (staCount : Nat) (alloc : List (Vector α)) : List (Vector α) :=
  (List.range staCount).foldl
    (fun acc (i : Nat) =>
      let theta := theta0 + twoPi * (i : α) / (staCount : α)
      let x := apPos.x + r * cos theta
      let y := apPos.y + r * sin theta
      acc ++ [⟨x, y, apPos.z⟩])
    alloc

/-- The ring placement loop of `scenario_coex_be_3sta`, whose access point is
at the origin: `x = r * std::cos (theta)`, `y = r * std::sin (theta)`,
`positionAlloc->Add (Vector (x, y, 0.0))`. -/
def ringPlacementOrigin (cos sin : α → α) (twoPi : α) (r theta0 : α)
    (staCount : Nat) (alloc : List (Vector α)) : List (Vector α) :=
  (List.range staCount).foldl
    (fun acc (i : Nat) =>
      let theta := theta0 + twoPi * (i : α) / (staCount : α)
      let x := r * cos theta
      let y := r * sin theta
      acc ++ [⟨x, y, 0⟩])
    alloc

end Placement

/-! ## Sample flow records -/

/-- A flow to port 9000 that received five packets. -/
def flowMany : FlowRecord ℚ := ⟨9000, 5, 1000, 1, 2⟩

/-- A flow to port 9000 that received a single packet. -/
def flowOne : FlowRecord ℚ := ⟨9000, 1, 2000, 3, 7⟩

/-- A flow to port 9000 that received nothing. -/
def flowNone : FlowRecord ℚ := ⟨9000, 0, 2000, 3, 7⟩

/-- A flow to ring port 9002 with 100000 packets of 1472 bytes. -/
def flowRing : FlowRecord ℚ := ⟨9002, 100000, 147200000, 5, 2⟩

/-- A flow to ring port 9003 that received a single packet. -/
def flowRingOne : FlowRecord ℚ := ⟨9003, 1, 1472, 4, 9⟩

/-- A flow to a port no station listens on. -/
def flowStray : FlowRecord ℚ := ⟨53, 7, 700, 1, 1⟩

/-! ## Ring placement: angles, divisions, anchor, constants -/

section PlacementMore

variable {α : Type} [Field α]

/-- The value of `theta` in iteration `i` of the ring placement loop,
`theta0 + twoPi * static_cast<double> (i) / static_cast<double> (staCount)`. -/
def ringTheta (twoPi theta0 : α) (staCount i : Nat) : α :=
  theta0 + twoPi * (i : α) / (staCount : α)

/-- The divisions the ring placement loop evaluates, in order: one per
iteration, with dividend `twoPi * i` and with the station count that is
converted to `double` as divisor. -/
def ringPlacementDivs (twoPi : α) (staCount : Nat) : List (α × Nat) :=
  (List.range staCount).foldl
    (fun acc (i : Nat) => acc ++ [(twoPi * (i : α), staCount)]) []

/-- The position of a network's single primary station:
`Vector (apPos.x + r, apPos.y, apPos.z)`. -/
def anchorPlacement (apPos : Vector α) (r : α) : Vector α :=
  ⟨apPos.x + r, apPos.y, apPos.z⟩

/-- The allocator of `scenario_coex_a_ax_decsta` / `scenario_coex_a_be_decsta`
when the mobility model is installed: the two access points, the legacy
station, then the ring stations. -/
def decstaPositions (cos sin : α → α) (twoPi : α) (apLegacyPos apRingPos : Vector α)
    (r theta0 : α) (staCount : Nat) : List (Vector α) :=
  ringPlacement cos sin twoPi apRingPos r theta0 staCount
    [apLegacyPos, apRingPos, anchorPlacement apLegacyPos r]

/-- The allocator of `scenario_single_be`: `apPos (0.0, 0.0, 0.0)` and
`staPos (2.0, 0.0, 0.0)`. -/
def positions_single_be : List (Vector α) := [⟨0, 0, 0⟩, ⟨2, 0, 0⟩]

/-- The allocator of `scenario_coex_ax_2sta`: two access points at the origin
and one station for each at `(apPos.x + r, apPos.y, apPos.z)` with `r = 5.0`. -/
def positions_coex_ax_2sta : List (Vector α) :=
  [⟨0, 0, 0⟩, ⟨0, 0, 0⟩, anchorPlacement ⟨0, 0, 0⟩ 5, anchorPlacement ⟨0, 0, 0⟩ 5]

/-- The literal `const double twoPi = 6.283185307179586`. -/
def Const.twoPi : α := 6283185307179586 / 1000000000000000

/-- The literal `const double theta0 = 0.39269908169872414`. -/
def Const.theta0 : α := 39269908169872414 / 100000000000000000

end PlacementMore

/-! ## Divisions evaluated by the reduction loop -/

section ReductionTrace

variable {α : Type} [LinearOrderedField α]

/-- How often one iteration of the reduction loop executes the guarded block
for a flow with destination port `port`: once for the first matching branch
of an `if / else if` chain; once for the legacy port, else once per matching
ring index, in the `decsta` loops; once per matching index in the ring scan. -/
def Scenario.blockRuns : Scenario → Nat → Nat
  | .chain ports, port => if port ∈ ports then 1 else 0
  | .legacyRing portLegacy ringPorts, port =>
    if port = portLegacy then 1 else ringPorts.count port
  | .ring ports, port => ports.count port

/-- The divisions one iteration of the reduction loop evaluates for a flow. -/
def Scenario.stepDivs (simulationTime : α) (sc : Scenario) (flow : FlowRecord α) :
    List (DivEval α) :=
  (List.replicate (sc.blockRuns flow.destinationPort)
    (updateMetricDivs simulationTime flow)).flatten

/-- The divisions the whole loop over `stats` evaluates, in order. -/
def Scenario.reduceDivs (simulationTime : α) (sc : Scenario)
    (flows : List (FlowRecord α)) : List (DivEval α) :=
  flows.flatMap (sc.stepDivs simulationTime)

end ReductionTrace

/-! ## The results block -/

section Report

variable {α : Type} [LinearOrderedField α]

/-- One line of the results block: the text before `" - Throughput: "` and the
three values streamed to `std::cout`, `throughput`, `avgDelay * 1000` and
`avgJitter * 1000` (the formatting of a `double` is not modelled). -/
structure ResultLine (α : Type) where
  label : String
  throughput : α
  delayMs : α
  jitterMs : α

/-- The line printed for a station's results under a label. -/
def resultLine (label : String) (m : Metric α) : ResultLine α :=
  ⟨label, m.throughput, m.avgDelay * 1000, m.avgJitter * 1000⟩

/-- A sequence of `std::cout` statements, one per named station, in program
order (`scenario_single_be`, `scenario_coex_ax_2sta`, `scenario_coex_ac_be`,
`scenario_coex_n_ax_dualsta`, `scenario_coex_ac_ax_quadsta`). -/
def chainReport (labels : List String) (ms : List (Metric α)) : List (ResultLine α) :=
  List.zipWith resultLine labels ms

/-- The loop `for (uint32_t i = 0; i < staCount; ++i) std::cout << "<standard>
STA #" << (i + 1) << " - Throughput: " << throughput[i] …` appending to the
lines printed so far. -/
def staLines (standard : String) (staCount : Nat) (ms : List (Metric α))
    (out : List (ResultLine α)) : List (ResultLine α) :=
  (List.range staCount).foldl
    (fun acc (i : Nat) =>
      acc ++ [resultLine (standard ++ " STA #" ++ toString ((i + 1) % 2 ^ 32))
        (ms.getD i Metric.zero)])
    out

/-- The results block of the two `decsta` scenarios: the legacy station's
line under the network's name, then the loop over the ring stations. -/
def decstaReport (network standard : String) (staCount : Nat)
    (st : Metric α × List (Metric α)) : List (ResultLine α) :=
  staLines standard staCount st.2 [resultLine network st.1]

/-- Labels of `scenario_single_be`. -/
def labels_single_be : List String := ["802.11be network"]

/-- Labels of `scenario_coex_ax_2sta`. -/
def labels_coex_ax_2sta : List String := ["802.11ax network 1", "802.11ax network"]

/-- Labels of `scenario_coex_ac_be`. -/
def labels_coex_ac_be : List String := ["802.11ac network", "802.11be network"]

/-- Labels of `scenario_coex_n_ax_dualsta`. -/
def labels_coex_n_ax_dualsta : List String :=
  ["802.11n network", "802.11ax STA #1", "802.11ax STA #2"]

/-- Labels of `scenario_coex_ac_ax_quadsta`. -/
def labels_coex_ac_ax_quadsta : List String :=
  ["802.11ac network", "802.11ax STA #1", "802.11ax STA #2", "802.11ax STA #3",
    "802.11ax STA #4"]

/-- The results block of `scenario_coex_a_ax_decsta` for `axStaCount` ring
stations. -/
def report_coex_a_ax_decsta (axStaCount : Nat) (st : Metric α × List (Metric α)) :
    List (ResultLine α) :=
  decstaReport "802.11a network" "802.11ax" axStaCount st

/-- The results block of `scenario_coex_a_be_decsta` for `beStaCount` ring
stations. -/
def report_coex_a_be_decsta (beStaCount : Nat) (st : Metric α × List (Metric α)) :
    List (ResultLine α) :=
  decstaReport "802.11a network" "802.11be" beStaCount st

/-- The results block of `scenario_coex_be_3sta` for `beStaCount` stations. -/
def report_coex_be_3sta (beStaCount : Nat) (ms : List (Metric α)) : List (ResultLine α) :=
  staLines "802.11be" beStaCount ms []

end Report

/-! ## Concrete scenario C -/

/-- A flow record of concrete scenario C: 100000 packets of 1472 bytes to
port 9000, delay sum 5 s, jitter sum 2 s. -/
def flowScenarioC : FlowRecord ℚ := ⟨9000, 100000, 147200000, 5, 2⟩

/-! ## Application schedule -/

section Schedule

variable {α : Type} [LinearOrderedField α]

/-- The `Start` and `Stop` times of an application, in seconds. -/
structure AppTimes (α : Type) where
  start : α
  stop : α

/-- The times of every UDP server: `Start (Seconds (0.0))`,
`Stop (Seconds (simulationTime + 1.0))`. -/
def serverTimes (simulationTime : α) : AppTimes α := ⟨0, simulationTime + 1⟩

/-- The times of every UDP client (a station's traffic generator):
`Start (Seconds (1.0))`, `Stop (Seconds (simulationTime + 1.0))`. -/
def clientTimes (simulationTime : α) : AppTimes α := ⟨1, simulationTime + 1⟩

/-- The time of `Simulator::Stop (Seconds (simulationTime + 1.5))`. -/
def simulatorStop (simulationTime : α) : α := simulationTime + 3 / 2

/-- The clients a scenario installs, one per station, each with the station's
destination port and its times. -/
def Scenario.clientApps (simulationTime : α) (sc : Scenario) : List (Nat × AppTimes α) :=
  sc.ports.map (fun port => (port, clientTimes simulationTime))

/-- The servers a scenario installs, one per station port. -/
def Scenario.serverApps (simulationTime : α) (sc : Scenario) : List (Nat × AppTimes α) :=
  sc.ports.map (fun port => (port, serverTimes simulationTime))

end Schedule

/-! ## The `decsta` loop without `continue`, ring count from the container -/

section Variants

variable {α : Type} [LinearOrderedField α]

/-- The loop body of the `decsta` scenarios with the `continue` removed: after
the legacy test the ring ports are scanned in every case. -/
def decstaStepNoContinue (simulationTime : α) (portLegacy : Nat) (ringPorts : List Nat)
    (flow : FlowRecord α) (st : Metric α × List (Metric α)) : Metric α × List (Metric α) :=
  let legacy :=
    if flow.destinationPort = portLegacy then updateMetric simulationTime flow st.1 else st.1
  (legacy, ringScan simulationTime ringPorts flow st.2)

/-- The reduction of the `decsta` scenarios with the `continue` removed, on
the list of all stations' results (legacy station first). -/
def reduceNoContinue (simulationTime : α) (portLegacy : Nat) (ringPorts : List Nat)
    (flows : List (FlowRecord α)) : List (Metric α) :=
  let st := flows.foldl
    (fun st flow => decstaStepNoContinue simulationTime portLegacy ringPorts flow st)
    (Metric.zero, List.replicate ringPorts.length Metric.zero)
  st.1 :: st.2

end Variants

/-- The ring count of `scenario_coex_ac_ax_quadsta`, `scenario_coex_ac_be` and
`scenario_coex_n_ax_dualsta`: `(wifiStaNodes.GetN () > 0) ?
(wifiStaNodes.GetN () - 1) : 0` on `uint32_t`. -/
def ringCountOf (staNodes : Nat) : Nat :=
  if 0 < staNodes then u32Sub staNodes 1 else 0

/-- The allocator of those three scenarios when the mobility model is
installed: the two access points, the anchor of station node 0 if there is a
station node, then the ring of `ringCountOf staNodes` stations. The mobility
helper hands the positions out in this order, first to the two access point
nodes, then to the station nodes. -/
def anchorRingPositions {α : Type} [Field α] (cos sin : α → α) (twoPi : α)
    (apLegacyPos apRingPos : Vector α) (r theta0 : α) (staNodes : Nat) : List (Vector α) :=
  let alloc := [apLegacyPos, apRingPos]
  let alloc := if 0 < staNodes then alloc ++ [anchorPlacement apLegacyPos r] else alloc
  ringPlacement cos sin twoPi apRingPos r theta0 (ringCountOf staNodes) alloc

/-- A flow to port 9000 with one packet, no bytes and no delay. -/
def flowEmptyPacket : FlowRecord ℚ := ⟨9000, 1, 0, 0, 0⟩

/-- A flow to port 9000 with five packets, no bytes and no delay. -/
def flowEmptyMany : FlowRecord ℚ := ⟨9000, 5, 0, 0, 3⟩

/-! ## The reduction, station by station -/

section ReductionLemmas

variable {α : Type} [LinearOrderedField α]

theorem ringScan_eq_zipWith (simulationTime : α) (flow : FlowRecord α) :
    ∀ (ps : List Nat) (ms : List (Metric α)), ps.length = ms.length →
      ringScan simulationTime ps flow ms
        = List.zipWith (portUpdate simulationTime flow) ps ms
  | [], [], _ => by simp [ringScan]
  | [], _ :: _, h => by simp at h
  | _ :: _, [], h => by simp at h
  | p :: ps, m :: ms, h => by
    have ih := ringScan_eq_zipWith simulationTime flow ps ms (by simpa using h)
    simp [ringScan, ih, portUpdate]

theorem zipWith_portUpdate_of_not_mem (simulationTime : α) (flow : FlowRecord α) :
    ∀ (ps : List Nat) (ms : List (Metric α)), ps.length = ms.length →
      flow.destinationPort ∉ ps →
      List.zipWith (portUpdate simulationTime flow) ps ms = ms
  | [], [], _, _ => by simp
  | [], _ :: _, h, _ => by simp at h
  | _ :: _, [], h, _ => by simp at h
  | p :: ps, m :: ms, h, hn => by
    have hp : flow.destinationPort ≠ p := fun e => hn (by simp [e])
    have hps : flow.destinationPort ∉ ps := fun e => hn (by simp [e])
    have ih := zipWith_portUpdate_of_not_mem simulationTime flow ps ms (by simpa using h) hps
    simp [portUpdate, hp, ih]

theorem chainStep_eq_zipWith (simulationTime : α) (flow : FlowRecord α) :
    ∀ (ps : List Nat) (ms : List (Metric α)), ps.length = ms.length → ps.Nodup →
      chainStep simulationTime ps flow ms
        = List.zipWith (portUpdate simulationTime flow) ps ms
  | [], [], _, _ => by simp [chainStep]
  | [], _ :: _, h, _ => by simp at h
  | _ :: _, [], h, _ => by simp at h
  | p :: ps, m :: ms, h, hnd => by
    have hlen : ps.length = ms.length := by simpa using h
    rw [List.nodup_cons] at hnd
    by_cases hp : flow.destinationPort = p
    · have hnot : flow.destinationPort ∉ ps := hp ▸ hnd.1
      simp [chainStep, portUpdate, hp, 
        zipWith_portUpdate_of_not_mem simulationTime flow ps ms hlen hnot]
    · have ih := chainStep_eq_zipWith simulationTime flow ps ms hlen hnd.2
      simp [chainStep, portUpdate, hp, ih]


theorem step_eq_zipWith (simulationTime : α) (flow : FlowRecord α) (sc : Scenario)
    (ms : List (Metric α)) (hlen : sc.ports.length = ms.length) (hnd : sc.ports.Nodup) :
    sc.step simulationTime flow ms
      = List.zipWith (portUpdate simulationTime flow) sc.ports ms := by
  cases sc with
  | chain ports => exact chainStep_eq_zipWith simulationTime flow ports ms hlen hnd
  | ring ports => exact ringScan_eq_zipWith simulationTime flow ports ms hlen
  | legacyRing portLegacy ringPorts =>
    cases ms with
    | nil => simp [Scenario.ports] at hlen
    | cons m ms =>
      have hl : ringPorts.length = ms.length := by simpa [Scenario.ports] using hlen
      have hnd2 : portLegacy ∉ ringPorts ∧ ringPorts.Nodup := by
        simpa [Scenario.ports] using hnd
      by_cases hp : flow.destinationPort = portLegacy
      · have hnot : flow.destinationPort ∉ ringPorts := hp ▸ hnd2.1
        simp [Scenario.step, decstaStep, Scenario.ports, portUpdate, hp,
          zipWith_portUpdate_of_not_mem simulationTime flow ringPorts ms hl hnot]
      · simp [Scenario.step, decstaStep, Scenario.ports, portUpdate, hp,
          ringScan_eq_zipWith simulationTime flow ringPorts ms hl]

theorem reduceFrom_eq_zipWith (simulationTime : α) (sc : Scenario) (hnd : sc.ports.Nodup) :
    ∀ (flows : List (FlowRecord α)) (ms : List (Metric α)), sc.ports.length = ms.length →
      sc.reduceFrom simulationTime flows ms
        = List.zipWith (fun p m => stationMetric simulationTime p flows m) sc.ports ms
  | [], ms, hlen => by
    simp only [Scenario.reduceFrom, stationMetric, List.foldl_nil]
    apply List.ext_getElem
    · simp [hlen]
    · intro i h1 h2; simp
  | flow :: flows, ms, hlen => by
    have hstep := step_eq_zipWith simulationTime flow sc ms hlen hnd
    have hlen2 : sc.ports.length = (sc.step simulationTime flow ms).length := by
      rw [hstep]; simp [hlen]
    have ih := reduceFrom_eq_zipWith simulationTime sc hnd flows _ hlen2
    simp only [Scenario.reduceFrom, List.foldl_cons] at ih ⊢
    rw [ih, hstep]
    apply List.ext_getElem
    · simp [hlen]
    · intro i h1 h2
      simp [stationMetric]

theorem reduce_eq_map (simulationTime : α) (sc : Scenario) (hnd : sc.ports.Nodup)
    (flows : List (FlowRecord α)) :
    sc.reduce simulationTime flows
      = sc.ports.map (fun p => stationMetric simulationTime p flows Metric.zero) := by
  rw [Scenario.reduce, reduceFrom_eq_zipWith simulationTime sc hnd flows _ (by simp)]
  apply List.ext_getElem
  · simp
  · intro i h1 h2
    simp

theorem stationMetric_eq_filter (simulationTime : α) (p : Nat) :
    ∀ (flows : List (FlowRecord α)) (m : Metric α),
      stationMetric simulationTime p flows m
        = (flows.filter (fun f => f.destinationPort = p)).foldl
            (fun acc f => updateMetric simulationTime f acc) m
  | [], m => by simp [stationMetric]
  | flow :: flows, m => by
    have ih := stationMetric_eq_filter simulationTime p flows
    simp only [stationMetric, List.foldl_cons] at ih ⊢
    by_cases hp : flow.destinationPort = p
    · simpa [portUpdate, hp] using ih _
    · simpa [portUpdate, hp] using ih _

theorem reduce_station (simulationTime : α) (sc : Scenario) (hnd : sc.ports.Nodup)
    (flows : List (FlowRecord α)) (k p : Nat) (hk : sc.ports[k]? = some p) :
    (sc.reduce simulationTime flows)[k]?
      = some ((flows.filter (fun f => f.destinationPort = p)).foldl
          (fun acc f => updateMetric simulationTime f acc) Metric.zero) := by
  rw [reduce_eq_map simulationTime sc hnd flows, List.getElem?_map, hk,
    Option.map_some', stationMetric_eq_filter]

theorem u32Sub_one (rx : Nat) (h1 : 1 ≤ rx) (h32 : rx < 2 ^ 32) : u32Sub rx 1 = rx - 1 := by
  unfold u32Sub
  omega

theorem updateMetric_of_many (simulationTime : α) (flow : FlowRecord α) (m : Metric α)
    (hrx : 1 < flow.rxPackets) (h32 : flow.rxPackets < 2 ^ 32) :
    updateMetric simulationTime flow m
      = ⟨(flow.rxBytes : α) * 8 / (simulationTime * 10 ^ 6),
          flow.delaySum / (flow.rxPackets : α),
          flow.jitterSum / ((flow.rxPackets : α) - 1)⟩ := by
  have h0 : 0 < flow.rxPackets := by omega
  have hcast : ((flow.rxPackets - 1 : Nat) : α) = (flow.rxPackets : α) - 1 := by
    rw [Nat.cast_sub (by omega)]; simp
  simp only [updateMetric, h0, hrx, if_true, u32Sub_one _ (by omega) h32, hcast]
  norm_num

theorem updateMetric_of_one (simulationTime : α) (flow : FlowRecord α) (m : Metric α)
    (hrx : flow.rxPackets = 1) :
    updateMetric simulationTime flow m
      = ⟨(flow.rxBytes : α) * 8 / (simulationTime * 10 ^ 6), flow.delaySum, m.avgJitter⟩ := by
  simp only [updateMetric, hrx]
  norm_num

theorem updateMetric_of_none (simulationTime : α) (flow : FlowRecord α) (m : Metric α)
    (hrx : flow.rxPackets = 0) : updateMetric simulationTime flow m = m := by
  simp [updateMetric, hrx]

theorem updateMetric_avgJitter_of_le_one (simulationTime : α) (flow : FlowRecord α)
    (m : Metric α) (hrx : flow.rxPackets ≤ 1) :
    (updateMetric simulationTime flow m).avgJitter = m.avgJitter := by
  have h1 : ¬ 1 < flow.rxPackets := by omega
  unfold updateMetric
  by_cases h0 : 0 < flow.rxPackets <;> simp [h0, h1]

theorem foldl_updateMetric_of_all_none (simulationTime : α) :
    ∀ (l : List (FlowRecord α)) (m : Metric α), (∀ f ∈ l, f.rxPackets = 0) →
      l.foldl (fun acc f => updateMetric simulationTime f acc) m = m
  | [], _, _ => rfl
  | f :: l, m, h => by
    rw [List.foldl_cons, updateMetric_of_none simulationTime f m (h f (by simp))]
    exact foldl_updateMetric_of_all_none simulationTime l m
      (fun g hg => h g (List.mem_cons_of_mem _ hg))

theorem foldl_updateMetric_avgJitter (simulationTime : α) :
    ∀ (l : List (FlowRecord α)) (m : Metric α), (∀ f ∈ l, f.rxPackets ≤ 1) →
      (l.foldl (fun acc f => updateMetric simulationTime f acc) m).avgJitter = m.avgJitter
  | [], _, _ => rfl
  | f :: l, m, h => by
    rw [List.foldl_cons, foldl_updateMetric_avgJitter simulationTime l _
      (fun g hg => h g (List.mem_cons_of_mem _ hg)),
      updateMetric_avgJitter_of_le_one simulationTime f m (h f (by simp))]

theorem foldl_updateMetric_whole (simulationTime : α) (l : List (FlowRecord α)) :
    l.Pairwise (fun a b => b.rxPackets = 1 → a.rxPackets ≤ 1) →
      l.foldl (fun acc f => updateMetric simulationTime f acc) Metric.zero = Metric.zero ∨
      ∃ r ∈ l, l.foldl (fun acc f => updateMetric simulationTime f acc) Metric.zero
        = updateMetric simulationTime r Metric.zero := by
  induction l using List.reverseRecOn with
  | nil => intro _; left; rfl
  | append_singleton l a ih =>
    intro hp
    rw [List.pairwise_append] at hp
    obtain ⟨hl, -, hla⟩ := hp
    rw [List.foldl_append, List.foldl_cons, List.foldl_nil]
    rcases Nat.lt_trichotomy a.rxPackets 1 with h | h | h
    · have h0 : a.rxPackets = 0 := by omega
      rw [updateMetric_of_none simulationTime a _ h0]
      rcases ih hl with hz | ⟨r, hr, hm⟩
      · left; exact hz
      · right; exact ⟨r, by simp [hr], hm⟩
    · right
      refine ⟨a, by simp, ?_⟩
      have hj := foldl_updateMetric_avgJitter simulationTime l Metric.zero
        (fun f hf => hla f hf a (by simp) h)
      rw [updateMetric_of_one simulationTime a _ h, updateMetric_of_one simulationTime a _ h, hj]
    · right
      refine ⟨a, by simp, ?_⟩
      have h0 : 0 < a.rxPackets := by omega
      simp [updateMetric, h, h0]

theorem chainStep_of_not_mem (simulationTime : α) (flow : FlowRecord α) :
    ∀ (ps : List Nat) (ms : List (Metric α)), flow.destinationPort ∉ ps →
      chainStep simulationTime ps flow ms = ms
  | [], _, _ => by simp [chainStep]
  | _ :: _, [], _ => by simp [chainStep]
  | p :: ps, m :: ms, h => by
    have hp : flow.destinationPort ≠ p := fun e => h (by simp [e])
    have hps : flow.destinationPort ∉ ps := fun e => h (by simp [e])
    simp [chainStep, hp, chainStep_of_not_mem simulationTime flow ps ms hps]

theorem ringScan_of_not_mem (simulationTime : α) (flow : FlowRecord α) :
    ∀ (ps : List Nat) (ms : List (Metric α)), flow.destinationPort ∉ ps →
      ringScan simulationTime ps flow ms = ms
  | [], _, _ => by simp [ringScan]
  | _ :: _, [], _ => by simp [ringScan]
  | p :: ps, m :: ms, h => by
    have hp : flow.destinationPort ≠ p := fun e => h (by simp [e])
    have hps : flow.destinationPort ∉ ps := fun e => h (by simp [e])
    simp [ringScan, hp, ringScan_of_not_mem simulationTime flow ps ms hps]

end ReductionLemmas

/-! ## The port lists -/

theorem portLoop_eq (bound : Nat) (hB : bound ≤ 65535) :
    ∀ (fuel basePort : Nat) (acc : List Nat), basePort ≤ bound → bound - basePort < fuel →
      portLoop bound fuel basePort acc = some (acc ++ List.range' basePort (bound - basePort))
  | 0, _, _, _, hf => by omega
  | fuel + 1, basePort, acc, hle, hf => by
    by_cases hlt : basePort < bound
    · have hmod : (basePort + 1) % 2 ^ 16 = basePort + 1 := by omega
      have hsub : bound - basePort = (bound - (basePort + 1)) + 1 := by omega
      rw [portLoop, if_pos hlt, hmod,
        portLoop_eq bound hB fuel (basePort + 1) _ (by omega) (by omega), hsub,
        List.range'_succ]
      simp
    · have : bound - basePort = 0 := by omega
      rw [portLoop, if_neg hlt, this]
      simp

theorem loopPorts_eq (b staCount : Nat) (h : b + staCount ≤ 65535) (fuel : Nat)
    (hf : staCount < fuel) : loopPorts b staCount fuel = some (List.range' b staCount) := by
  have h1 : (b + staCount) % 2 ^ 32 = b + staCount := by omega
  have h2 : b % 2 ^ 16 = b := by omega
  rw [loopPorts, h1, h2, portLoop_eq (b + staCount) h fuel b [] (by omega) (by omega)]
  simp

theorem foldl_set_range (g : Nat → Nat) :
    ∀ (k : Nat) (v : List Nat), k ≤ v.length →
      (List.range k).foldl (fun v i => v.set i (g i)) v
        = (List.range k).map g ++ v.drop k
  | 0, v, _ => by simp
  | k + 1, v, hk => by
    rw [List.range_succ, List.foldl_append, foldl_set_range g k v (by omega)]
    simp only [List.foldl_cons, List.foldl_nil, List.map_append, List.map_cons, List.map_nil]
    have hlen : ((List.range k).map g).length = k := by simp
    rw [List.set_append_right _ _ (by omega), hlen, Nat.sub_self,
      List.drop_eq_getElem_cons (by omega : k < v.length)]
    simp [List.set]

theorem bePorts_eq (beStaCount : Nat) (h : 9001 + beStaCount ≤ 65535) :
    bePorts beStaCount = List.range' 9001 beStaCount := by
  rw [bePorts, foldl_set_range _ beStaCount _ (by simp)]
  simp only [List.drop_replicate, Nat.sub_self, List.replicate_zero, List.append_nil]
  rw [List.range'_eq_map_range]
  apply List.map_congr_left
  intro i hi
  rw [List.mem_range] at hi
  omega

theorem nodup_legacy_range (n : Nat) : (9000 :: List.range' 9001 n).Nodup := by
  rw [List.nodup_cons]
  refine ⟨?_, List.nodup_range' 9001 n⟩
  intro hmem
  rw [List.mem_range'_1] at hmem
  omega

/-! ## The ring placement -/

theorem foldl_append_singleton {β γ : Type} (f : γ → β) :
    ∀ (l : List γ) (acc : List β), l.foldl (fun acc i => acc ++ [f i]) acc = acc ++ l.map f
  | [], acc => by simp
  | i :: l, acc => by
    rw [List.foldl_cons, foldl_append_singleton f l]
    simp

section PlacementLemmas

variable {α : Type} [Field α]

theorem ringPlacement_eq (cos sin : α → α) (twoPi : α) (apPos : Vector α) (r theta0 : α)
    (staCount : Nat) (alloc : List (Vector α)) :
    ringPlacement cos sin twoPi apPos r theta0 staCount alloc
      = alloc ++ (List.range staCount).map (fun (i : Nat) =>
          (⟨apPos.x + r * cos (theta0 + twoPi * (i : α) / (staCount : α)),
            apPos.y + r * sin (theta0 + twoPi * (i : α) / (staCount : α)),
            apPos.z⟩ : Vector α)) := by
  rw [ringPlacement, foldl_append_singleton]

theorem ringPlacementOrigin_eq (cos sin : α → α) (twoPi : α) (r theta0 : α)
    (staCount : Nat) (alloc : List (Vector α)) :
    ringPlacementOrigin cos sin twoPi r theta0 staCount alloc
      = alloc ++ (List.range staCount).map (fun (i : Nat) =>
          (⟨r * cos (theta0 + twoPi * (i : α) / (staCount : α)),
            r * sin (theta0 + twoPi * (i : α) / (staCount : α)),
            0⟩ : Vector α)) := by
  rw [ringPlacementOrigin, foldl_append_singleton]

end PlacementLemmas

theorem ring_point_sq (r t : ℝ) : (r * Real.cos t) ^ 2 + (r * Real.sin t) ^ 2 = r ^ 2 := by
  have h := Real.cos_sq_add_sin_sq t
  calc (r * Real.cos t) ^ 2 + (r * Real.sin t) ^ 2
      = r ^ 2 * (Real.cos t ^ 2 + Real.sin t ^ 2) := by ring
    _ = r ^ 2 := by rw [h, mul_one]

/-! ## Reduction of the flow records: formulas and guards -/

section ReductionClaims

variable {α : Type} [LinearOrderedField α]

/-- C1: for a positive `simulationTime`, a scenario with pairwise distinct
station ports, and a list of flow records in which `r` is the only record for
its destination port, that port being the port of station `k`: if `r` has more
than one received packet (a `uint32_t` count), the reduction leaves station `k`
with `throughput = rxBytes * 8 / (simulationTime * 10^6)`,
`avgDelay = delaySum / rxPackets` and `avgJitter = jitterSum / (rxPackets - 1)`. -/
theorem reduce_sole_record_formulas (sc : Scenario) (hnd : sc.ports.Nodup)
    (simulationTime : α) (_hT : 0 < simulationTime)
    (flows : List (FlowRecord α)) (r : FlowRecord α) (k : Nat)
    (hk : sc.ports[k]? = some r.destinationPort)
    (honly : flows.filter (fun f => f.destinationPort = r.destinationPort) = [r])
    (hrx : 1 < r.rxPackets) (h32 : r.rxPackets < 2 ^ 32) :
    (sc.reduce simulationTime flows)[k]?
      = some ⟨(r.rxBytes : α) * 8 / (simulationTime * 10 ^ 6),
              r.delaySum / (r.rxPackets : α),
              r.jitterSum / ((r.rxPackets : α) - 1)⟩ := by
  rw [reduce_station simulationTime sc hnd flows k _ hk, honly]
  simp only [List.foldl_cons, List.foldl_nil]
  rw [updateMetric_of_many simulationTime r _ hrx h32]

/-- C2: when `r`, the only record for the port of station `k`, has at most one
received packet, station `k` ends with `avgJitter = 0` whatever `jitterSum`
is, and the guarded block evaluates no jitter quotient for `r`. -/
theorem jitter_zero_of_at_most_one_packet (sc : Scenario) (hnd : sc.ports.Nodup)
    (simulationTime : α) (flows : List (FlowRecord α)) (r : FlowRecord α) (k : Nat)
    (hk : sc.ports[k]? = some r.destinationPort)
    (honly : flows.filter (fun f => f.destinationPort = r.destinationPort) = [r])
    (hrx : r.rxPackets ≤ 1) :
    (∃ m, (sc.reduce simulationTime flows)[k]? = some m ∧ m.avgJitter = 0) ∧
      ∀ e ∈ updateMetricDivs simulationTime r, e.which ≠ Quot3.jitter := by
  constructor
  · refine ⟨_, reduce_station simulationTime sc hnd flows k _ hk, ?_⟩
    rw [honly]
    simp only [List.foldl_cons, List.foldl_nil]
    rw [updateMetric_avgJitter_of_le_one simulationTime r _ hrx]
    rfl
  · intro e he
    have h1 : ¬ 1 < r.rxPackets := by omega
    unfold updateMetricDivs at he
    by_cases h0 : 0 < r.rxPackets
    · simp only [h0, h1, if_true, if_false, List.mem_cons, List.mem_singleton,
        List.not_mem_nil, or_false] at he
      rcases he with rfl | rfl <;> simp
    · simp [h0] at he

/-- C3, as amended: a record with `rxPackets = 0` for the port of station `k`
leaves that station all-zero after the reduction provided every record for
that port has `rxPackets = 0` (in particular when it is the port's only
record), whatever `rxBytes`, `delaySum` and `jitterSum` the records carry. -/
theorem zero_packets_all_zero (sc : Scenario) (hnd : sc.ports.Nodup)
    (simulationTime : α) (flows : List (FlowRecord α)) (r : FlowRecord α) (k : Nat)
    (_hr : r ∈ flows) (hr0 : r.rxPackets = 0)
    (hk : sc.ports[k]? = some r.destinationPort)
    (hothers : ∀ f ∈ flows, f ≠ r → f.destinationPort = r.destinationPort →
      f.rxPackets = 0) :
    (sc.reduce simulationTime flows)[k]? = some Metric.zero := by
  rw [reduce_station simulationTime sc hnd flows k _ hk,
    foldl_updateMetric_of_all_none]
  intro f hf
  rw [List.mem_filter] at hf
  by_cases hfr : f = r
  · rw [hfr]; exact hr0
  · exact hothers f hf.1 hfr (by simpa using hf.2)

/-- C4: a record whose destination port is no station's port changes nothing:
from every prior state of the results, one iteration of the reduction loop on
that record returns the same state. -/
theorem unplanned_record_discarded (sc : Scenario) (simulationTime : α)
    (flow : FlowRecord α) (ms : List (Metric α))
    (hport : flow.destinationPort ∉ sc.ports) :
    sc.step simulationTime flow ms = ms := by
  cases sc with
  | chain ports => exact chainStep_of_not_mem simulationTime flow ports ms hport
  | ring ports => exact ringScan_of_not_mem simulationTime flow ports ms hport
  | legacyRing portLegacy ringPorts =>
    cases ms with
    | nil => rfl
    | cons m ms =>
      have hp : flow.destinationPort ≠ portLegacy :=
        fun e => hport (by simp [Scenario.ports, e])
      have hps : flow.destinationPort ∉ ringPorts :=
        fun e => hport (by simp [Scenario.ports, e])
      simp [Scenario.step, decstaStep, hp,
        ringScan_of_not_mem simulationTime flow ringPorts ms hps]

/-- C5, as amended: when `r1` then `r2` are the records for the port of
station `k`, the second one overwrites only what its guards let it: with
`r2.rxPackets > 1` the station's metric is that of `r2` alone from the all-zero
metric; with `r2.rxPackets = 1` throughput and delay are those of `r2` alone
and the jitter is the one `r1` alone gives; with `r2.rxPackets = 0` the metric
is that of `r1` alone. -/
theorem last_record_wins_by_guard (sc : Scenario) (hnd : sc.ports.Nodup)
    (simulationTime : α) (flows : List (FlowRecord α)) (r1 r2 : FlowRecord α) (k : Nat)
    (hk : sc.ports[k]? = some r1.destinationPort)
    (hboth : flows.filter (fun f => f.destinationPort = r1.destinationPort) = [r1, r2]) :
    ∃ m, (sc.reduce simulationTime flows)[k]? = some m ∧
      (1 < r2.rxPackets → m = updateMetric simulationTime r2 Metric.zero) ∧
      (r2.rxPackets = 1 →
        m.throughput = (updateMetric simulationTime r2 Metric.zero).throughput ∧
        m.avgDelay = (updateMetric simulationTime r2 Metric.zero).avgDelay ∧
        m.avgJitter = (updateMetric simulationTime r1 Metric.zero).avgJitter) ∧
      (r2.rxPackets = 0 → m = updateMetric simulationTime r1 Metric.zero) := by
  refine ⟨_, reduce_station simulationTime sc hnd flows k _ hk, ?_, ?_, ?_⟩
  all_goals rw [hboth]; simp only [List.foldl_cons, List.foldl_nil]
  · intro h
    have h0 : 0 < r2.rxPackets := by omega
    simp [updateMetric, h, h0]
  · intro h
    simp [updateMetric_of_one simulationTime r2 _ h]
  · intro h
    rw [updateMetric_of_none simulationTime r2 _ h]

/-- C6, as amended: when among the records for the port of station `k` no
record with exactly one received packet is processed after a record with more
than one, the station's final metric is all-zero or equals, in all three
fields at once, the metric computed from one single record for that port. -/
theorem metric_whole_unless_lone_packet_follows (sc : Scenario) (hnd : sc.ports.Nodup)
    (simulationTime : α) (flows : List (FlowRecord α)) (k p : Nat)
    (hk : sc.ports[k]? = some p)
    (hord : (flows.filter (fun f => f.destinationPort = p)).Pairwise
      (fun a b => b.rxPackets = 1 → a.rxPackets ≤ 1)) :
    ∃ m, (sc.reduce simulationTime flows)[k]? = some m ∧
      (m = Metric.zero ∨
        ∃ r ∈ flows, r.destinationPort = p ∧
          m = updateMetric simulationTime r Metric.zero) := by
  refine ⟨_, reduce_station simulationTime sc hnd flows k p hk, ?_⟩
  rcases foldl_updateMetric_whole simulationTime _ hord with hz | ⟨r, hr, hm⟩
  · left; exact hz
  · right
    rw [List.mem_filter] at hr
    exact ⟨r, hr.1, by simpa using hr.2, hm⟩

end ReductionClaims

/-- C1 at `scenario_coex_a_ax_decsta` with three ring ports: ring station 2
(index 2 of the results) gets the three quotients of `flowRing`. -/
theorem reduce_sole_record_formulas_witness :
    ((scenario_coex_a_ax_decsta [9001, 9002, 9003]).reduce (260 : ℚ)
        [flowNone, flowRing, flowStray])[2]?
      = some ⟨(flowRing.rxBytes : ℚ) * 8 / (260 * 10 ^ 6),
              flowRing.delaySum / (flowRing.rxPackets : ℚ),
              flowRing.jitterSum / ((flowRing.rxPackets : ℚ) - 1)⟩ :=
  reduce_sole_record_formulas (scenario_coex_a_ax_decsta [9001, 9002, 9003]) (by decide)
    260 (by norm_num) [flowNone, flowRing, flowStray] flowRing 2 rfl rfl
    (by decide) (by decide)

/-- C2 at `scenario_coex_be_3sta` with ports 9001 … 9003: the one-packet flow
to port 9003 leaves station 2 with zero jitter. -/
theorem jitter_zero_of_at_most_one_packet_witness :
    (∃ m, ((scenario_coex_be_3sta [9001, 9002, 9003]).reduce (260 : ℚ)
        [flowRing, flowRingOne, flowStray])[2]? = some m ∧ m.avgJitter = 0) ∧
      ∀ e ∈ updateMetricDivs (260 : ℚ) flowRingOne, e.which ≠ Quot3.jitter :=
  jitter_zero_of_at_most_one_packet (scenario_coex_be_3sta [9001, 9002, 9003]) (by decide)
    260 [flowRing, flowRingOne, flowStray] flowRingOne 2 rfl rfl (by decide)

/-- C3 as stated fails: in `scenario_coex_ac_ax_quadsta`, after a five-packet
flow to port 9000 a zero-packet flow to the same port leaves station 0 with
the first flow's values, not with zeros. -/
theorem zero_packets_after_traffic_counterexample :
    flowNone ∈ [flowMany, flowNone] ∧ flowNone.rxPackets = 0 ∧
      scenario_coex_ac_ax_quadsta.ports[0]? = some flowNone.destinationPort ∧
      (scenario_coex_ac_ax_quadsta.reduce (260 : ℚ) [flowMany, flowNone])[0]?
        = some ⟨1 / 32500, 1 / 5, 1 / 2⟩ ∧
      (scenario_coex_ac_ax_quadsta.reduce (260 : ℚ) [flowMany, flowNone])[0]?
        ≠ some Metric.zero := by
  have hval : (scenario_coex_ac_ax_quadsta.reduce (260 : ℚ) [flowMany, flowNone])[0]?
      = some ⟨1 / 32500, 1 / 5, 1 / 2⟩ := by
    simp [Scenario.reduce, Scenario.reduceFrom, Scenario.step, scenario_coex_ac_ax_quadsta,
      Scenario.ports, chainStep, updateMetric, flowMany, flowNone, Metric.zero, u32Sub]
    norm_num
  refine ⟨by simp, rfl, rfl, hval, ?_⟩
  rw [hval]
  simp [Metric.zero]

/-- C3 amended, at `scenario_coex_a_be_decsta` with three ring stations: the
zero-packet flow to the legacy port leaves the legacy station all-zero. -/
theorem zero_packets_all_zero_witness :
    ((scenario_coex_a_be_decsta 3).reduce (260 : ℚ) [flowRing, flowNone, flowStray])[0]?
      = some Metric.zero :=
  zero_packets_all_zero (scenario_coex_a_be_decsta 3) (by decide) 260
    [flowRing, flowNone, flowStray] flowNone 0 (by simp) rfl rfl
    (by
      intro f hf hne hp
      simp only [List.mem_cons, List.mem_singleton, List.not_mem_nil, or_false] at hf
      rcases hf with rfl | rfl | rfl
      · exact absurd hp (by decide)
      · exact absurd rfl hne
      · exact absurd hp (by decide))

/-- C4 at `scenario_coex_n_ax_dualsta`: a flow to port 53 leaves a state of
the three stations' results as it was. -/
theorem unplanned_record_discarded_witness :
    scenario_coex_n_ax_dualsta.step (260 : ℚ) flowStray
        [⟨1, 2, 3⟩, Metric.zero, ⟨4, 5, 6⟩]
      = [⟨1, 2, 3⟩, Metric.zero, ⟨4, 5, 6⟩] :=
  unplanned_record_discarded scenario_coex_n_ax_dualsta 260 flowStray _ (by decide)

/-- C5 as stated fails: in `scenario_coex_ac_be` two flows to port 9000, the
second with one packet (or with none), leave station 0 with a metric that is
not the one the second flow alone gives. -/
theorem last_record_wins_counterexample :
    (scenario_coex_ac_be.reduce (260 : ℚ) [flowMany, flowOne])[0]?
        = some ⟨1 / 16250, 3, 1 / 2⟩ ∧
      (scenario_coex_ac_be.reduce (260 : ℚ) [flowOne])[0]? = some ⟨1 / 16250, 3, 0⟩ ∧
      (scenario_coex_ac_be.reduce (260 : ℚ) [flowMany, flowOne])[0]?
        ≠ (scenario_coex_ac_be.reduce (260 : ℚ) [flowOne])[0]? ∧
      (scenario_coex_ac_be.reduce (260 : ℚ) [flowMany, flowNone])[0]?
        = some ⟨1 / 32500, 1 / 5, 1 / 2⟩ ∧
      (scenario_coex_ac_be.reduce (260 : ℚ) [flowNone])[0]? = some ⟨0, 0, 0⟩ := by
  have h1 : (scenario_coex_ac_be.reduce (260 : ℚ) [flowMany, flowOne])[0]?
      = some ⟨1 / 16250, 3, 1 / 2⟩ := by
    simp [Scenario.reduce, Scenario.reduceFrom, Scenario.step, scenario_coex_ac_be,
      Scenario.ports, chainStep, updateMetric, flowMany, flowOne, Metric.zero, u32Sub]
    norm_num
  have h2 : (scenario_coex_ac_be.reduce (260 : ℚ) [flowOne])[0]? = some ⟨1 / 16250, 3, 0⟩ := by
    simp [Scenario.reduce, Scenario.reduceFrom, Scenario.step, scenario_coex_ac_be,
      Scenario.ports, chainStep, updateMetric, flowOne, Metric.zero]
    norm_num
  refine ⟨h1, h2, ?_, ?_, ?_⟩
  · rw [h1, h2]
    simp
  · simp [Scenario.reduce, Scenario.reduceFrom, Scenario.step, scenario_coex_ac_be,
      Scenario.ports, chainStep, updateMetric, flowMany, flowNone, Metric.zero, u32Sub]
    norm_num
  · simp [Scenario.reduce, Scenario.reduceFrom, Scenario.step, scenario_coex_ac_be,
      Scenario.ports, chainStep, updateMetric, flowNone, Metric.zero]

/-- C5 amended, at `scenario_coex_ac_be` with a five-packet flow followed by a
one-packet flow to port 9000. -/
theorem last_record_wins_by_guard_witness :
    ∃ m, (scenario_coex_ac_be.reduce (260 : ℚ) [flowMany, flowStray, flowOne])[0]? = some m ∧
      (1 < flowOne.rxPackets → m = updateMetric 260 flowOne Metric.zero) ∧
      (flowOne.rxPackets = 1 →
        m.throughput = (updateMetric 260 flowOne Metric.zero).throughput ∧
        m.avgDelay = (updateMetric 260 flowOne Metric.zero).avgDelay ∧
        m.avgJitter = (updateMetric 260 flowMany Metric.zero).avgJitter) ∧
      (flowOne.rxPackets = 0 → m = updateMetric 260 flowMany Metric.zero) :=
  last_record_wins_by_guard scenario_coex_ac_be (by decide) 260
    [flowMany, flowStray, flowOne] flowMany flowOne 0 rfl rfl

/-- C6 as stated fails: in `scenario_single_be` a five-packet flow followed by
a one-packet flow to port 9000 leaves throughput and delay of the second flow
with the jitter of the first; the result is neither all-zero nor the metric of
either record. -/
theorem partial_update_counterexample :
    (scenario_single_be.reduce (260 : ℚ) [flowMany, flowOne])[0]?
        = some ⟨1 / 16250, 3, 1 / 2⟩ ∧
      (⟨1 / 16250, 3, 1 / 2⟩ : Metric ℚ) ≠ Metric.zero ∧
      ∀ r ∈ [flowMany, flowOne],
        (⟨1 / 16250, 3, 1 / 2⟩ : Metric ℚ) ≠ updateMetric 260 r Metric.zero := by
  refine ⟨?_, ?_, ?_⟩
  · simp [Scenario.reduce, Scenario.reduceFrom, Scenario.step, scenario_single_be,
      Scenario.ports, chainStep, updateMetric, flowMany, flowOne, Metric.zero, u32Sub]
    norm_num
  · simp [Metric.zero]
  · intro r hr
    simp only [List.mem_cons, List.mem_singleton, List.not_mem_nil, or_false] at hr
    rcases hr with rfl | rfl
    · simp [updateMetric, flowMany, Metric.zero, u32Sub]
      norm_num
    · simp [updateMetric, flowOne, Metric.zero]

/-- C6 amended, at `scenario_single_be` with a one-packet flow followed by a
five-packet flow to port 9000. -/
theorem metric_whole_unless_lone_packet_follows_witness :
    ∃ m, (scenario_single_be.reduce (260 : ℚ) [flowOne, flowStray, flowMany])[0]? = some m ∧
      (m = Metric.zero ∨
        ∃ r ∈ [flowOne, flowStray, flowMany], r.destinationPort = 9000 ∧
          m = updateMetric 260 r Metric.zero) :=
  metric_whole_unless_lone_packet_follows scenario_single_be (by decide) 260
    [flowOne, flowStray, flowMany] 0 9000 rfl
    (by
      have hf : List.filter (fun f => decide (f.destinationPort = 9000))
          [flowOne, flowStray, flowMany] = [flowOne, flowMany] := rfl
      rw [hf]
      simp [flowOne, flowMany])

/-! ## Port planning -/

/-- C7: in every scenario the stations' destination ports are pairwise
distinct. For the five scenarios with named port constants this is a fact
about the constants; for `scenario_coex_a_ax_decsta` and
`scenario_coex_a_be_decsta` (legacy port 9000, ring ports from 9001) it holds
for every ring station count `n` with `9001 + n ≤ 65535`, the port loop
returning its vector whenever it is given more than `n` steps; for
`scenario_coex_be_3sta` (ports from 9000) for every count `m` with
`9000 + m ≤ 65535`. -/
theorem station_ports_pairwise_distinct (n m : Nat) (hn : 9001 + n ≤ 65535)
    (hm : 9000 + m ≤ 65535) :
    scenario_single_be.ports.Nodup ∧
    scenario_coex_ax_2sta.ports.Nodup ∧
    scenario_coex_ac_be.ports.Nodup ∧
    scenario_coex_n_ax_dualsta.ports.Nodup ∧
    scenario_coex_ac_ax_quadsta.ports.Nodup ∧
    (∃ axPorts, (∀ fuel, n < fuel → loopPorts 9001 n fuel = some axPorts) ∧
      (scenario_coex_a_ax_decsta axPorts).ports.Nodup) ∧
    (scenario_coex_a_be_decsta n).ports.Nodup ∧
    (∃ ports, (∀ fuel, m < fuel → loopPorts 9000 m fuel = some ports) ∧
      (scenario_coex_be_3sta ports).ports.Nodup) := by
  refine ⟨by decide, by decide, by decide, by decide, by decide, ?_, ?_, ?_⟩
  · exact ⟨List.range' 9001 n, fun fuel hf => loopPorts_eq 9001 n hn fuel hf,
      nodup_legacy_range n⟩
  · rw [scenario_coex_a_be_decsta, bePorts_eq n hn]
    exact nodup_legacy_range n
  · exact ⟨List.range' 9000 m, fun fuel hf => loopPorts_eq 9000 m hm fuel hf,
      List.nodup_range' 9000 m⟩

/-- C7 at the station counts of the programs, ten ring stations after the
legacy station and three stations in `scenario_coex_be_3sta`. -/
theorem station_ports_pairwise_distinct_witness :
    (9001 + 10 ≤ 65535 ∧ 9000 + 3 ≤ 65535) ∧
    (∃ axPorts, (∀ fuel, 10 < fuel → loopPorts 9001 10 fuel = some axPorts) ∧
      (scenario_coex_a_ax_decsta axPorts).ports.Nodup) ∧
    (scenario_coex_a_be_decsta 10).ports.Nodup ∧
    (∃ ports, (∀ fuel, 3 < fuel → loopPorts 9000 3 fuel = some ports) ∧
      (scenario_coex_be_3sta ports).ports.Nodup) :=
  ⟨⟨by decide, by decide⟩,
    (station_ports_pairwise_distinct 10 3 (by decide) (by decide)).2.2.2.2.2⟩

/-- C8: for a port base `b` and a station count `n` with `b + n ≤ 65535` the
port loop, given more than `n` steps, returns a vector of length `n` holding
`b + i` at every index `i < n`; for `b = 9001` the indexed assignment
`bePorts[i] = 9001 + i` builds the same vector. -/
theorem ring_ports_contiguous (b n : Nat) (h : b + n ≤ 65535) :
    ∃ ports, (∀ fuel, n < fuel → loopPorts b n fuel = some ports) ∧
      ports.length = n ∧
      (∀ i : Nat, i < n → ports[i]? = some (b + i)) ∧
      (b = 9001 → bePorts n = ports) := by
  refine ⟨List.range' b n, fun fuel hf => loopPorts_eq b n h fuel hf, by simp, ?_, ?_⟩
  · intro i hi
    simp [List.getElem?_range', hi]
  · intro hb
    subst hb
    exact bePorts_eq n h

/-- C8 at the constants of `scenario_coex_a_ax_decsta` and
`scenario_coex_a_be_decsta`: base 9001, ten stations. -/
theorem ring_ports_contiguous_witness :
    9001 + 10 ≤ 65535 ∧
    ∃ ports, (∀ fuel, 10 < fuel → loopPorts 9001 10 fuel = some ports) ∧
      ports.length = 10 ∧
      (∀ i : Nat, i < 10 → ports[i]? = some (9001 + i)) ∧
      (9001 = 9001 → bePorts 10 = ports) :=
  ⟨by decide, ring_ports_contiguous 9001 10 (by decide)⟩

/-! ## Ring placement -/

/-- C9: for a ring station count `n > 0`, centre `c`, radius `r` and offset
`theta0` the ring placement loop appends exactly `n` positions to the
allocator, the `i`-th of them being
`(c.x + r * cos theta_i, c.y + r * sin theta_i, c.z)` with
`theta_i = theta0 + twoPi * i / n`, so `z` is the centre's `z`; in
`scenario_coex_be_3sta` the same holds with the centre at the origin. Here
`twoPi` is the program's constant for `2 * pi` (`6.283185307179586`); the
statement holds for every value of it and every interpretation of
`std::cos`, `std::sin`. -/
theorem ring_placement_positions {α : Type} [Field α] (cos sin : α → α) (twoPi : α)
    (c : Vector α) (r theta0 : α) (n : Nat) (_hn : 0 < n) (alloc : List (Vector α)) :
    (∃ added, ringPlacement cos sin twoPi c r theta0 n alloc = alloc ++ added ∧
      added.length = n ∧
      ∀ i : Nat, i < n → added[i]? = some
        ⟨c.x + r * cos (theta0 + twoPi * (i : α) / (n : α)),
         c.y + r * sin (theta0 + twoPi * (i : α) / (n : α)), c.z⟩) ∧
    (∃ added, ringPlacementOrigin cos sin twoPi r theta0 n alloc = alloc ++ added ∧
      added.length = n ∧
      ∀ i : Nat, i < n → added[i]? = some
        ⟨0 + r * cos (theta0 + twoPi * (i : α) / (n : α)),
         0 + r * sin (theta0 + twoPi * (i : α) / (n : α)), 0⟩) := by
  constructor
  · refine ⟨_, ringPlacement_eq cos sin twoPi c r theta0 n alloc, by simp, ?_⟩
    intro i hi
    rw [List.getElem?_map, List.getElem?_range hi]
    simp
  · refine ⟨_, ringPlacementOrigin_eq cos sin twoPi r theta0 n alloc, by simp, ?_⟩
    intro i hi
    rw [List.getElem?_map, List.getElem?_range hi]
    simp

/-- C9 over the reals with `2 * pi`, at the constants of
`scenario_coex_a_ax_decsta`: radius 5, ten stations, offset `pi / 8`, the
allocator already holding the two access points and the legacy station. -/
theorem ring_placement_positions_witness :
    ∃ added, ringPlacement Real.cos Real.sin (2 * Real.pi) ⟨0, 0, 0⟩ 5 (Real.pi / 8) 10
        [⟨0, 0, 0⟩, ⟨0, 0, 0⟩, ⟨5, 0, 0⟩]
        = [⟨0, 0, 0⟩, ⟨0, 0, 0⟩, ⟨5, 0, 0⟩] ++ added ∧
      added.length = 10 ∧
      ∀ i : Nat, i < 10 → added[i]? = some
        ⟨(0 : ℝ) + 5 * Real.cos (Real.pi / 8 + 2 * Real.pi * (i : ℝ) / ((10 : Nat) : ℝ)),
         (0 : ℝ) + 5 * Real.sin (Real.pi / 8 + 2 * Real.pi * (i : ℝ) / ((10 : Nat) : ℝ)), 0⟩ :=
  (ring_placement_positions Real.cos Real.sin (2 * Real.pi) ⟨0, 0, 0⟩ 5 (Real.pi / 8) 10
    (by decide) [⟨0, 0, 0⟩, ⟨0, 0, 0⟩, ⟨5, 0, 0⟩]).1

/-- C10: over the reals, for a radius `r ≥ 0`, a count `n > 0`, every offset
and every index `i < n`, the position the ring placement loop computes for
station `i` satisfies `(x - c.x)^2 + (y - c.y)^2 = r^2`, that is, its distance
from the centre is `r`; likewise in `scenario_coex_be_3sta`, whose centre is
the origin. -/
theorem ring_station_distance (twoPi : ℝ) (c : Vector ℝ) (r : ℝ) (hr : 0 ≤ r) (theta0 : ℝ)
    (n : Nat) (_hn : 0 < n) (i : Nat) (hi : i < n) :
    (∃ p, (ringPlacement Real.cos Real.sin twoPi c r theta0 n [])[i]? = some p ∧
      (p.x - c.x) ^ 2 + (p.y - c.y) ^ 2 = r ^ 2 ∧
      Real.sqrt ((p.x - c.x) ^ 2 + (p.y - c.y) ^ 2) = r) ∧
    (∃ p, (ringPlacementOrigin Real.cos Real.sin twoPi r theta0 n [])[i]? = some p ∧
      (p.x - 0) ^ 2 + (p.y - 0) ^ 2 = r ^ 2 ∧
      Real.sqrt ((p.x - 0) ^ 2 + (p.y - 0) ^ 2) = r) := by
  constructor
  · refine ⟨⟨c.x + r * Real.cos (theta0 + twoPi * (i : ℝ) / (n : ℝ)),
      c.y + r * Real.sin (theta0 + twoPi * (i : ℝ) / (n : ℝ)), c.z⟩, ?_, ?_, ?_⟩
    · rw [ringPlacement_eq, List.nil_append, List.getElem?_map, List.getElem?_range hi]
      rfl
    · simpa using ring_point_sq r _
    · have h : (c.x + r * Real.cos (theta0 + twoPi * (i : ℝ) / (n : ℝ)) - c.x) ^ 2
          + (c.y + r * Real.sin (theta0 + twoPi * (i : ℝ) / (n : ℝ)) - c.y) ^ 2 = r ^ 2 := by
        simpa using ring_point_sq r _
      show Real.sqrt ((c.x + r * Real.cos (theta0 + twoPi * (i : ℝ) / (n : ℝ)) - c.x) ^ 2
          + (c.y + r * Real.sin (theta0 + twoPi * (i : ℝ) / (n : ℝ)) - c.y) ^ 2) = r
      rw [h, Real.sqrt_sq hr]
  · refine ⟨⟨r * Real.cos (theta0 + twoPi * (i : ℝ) / (n : ℝ)),
      r * Real.sin (theta0 + twoPi * (i : ℝ) / (n : ℝ)), 0⟩, ?_, ?_, ?_⟩
    · rw [ringPlacementOrigin_eq, List.nil_append, List.getElem?_map, List.getElem?_range hi]
      rfl
    · simpa using ring_point_sq r _
    · show Real.sqrt ((r * Real.cos (theta0 + twoPi * (i : ℝ) / (n : ℝ)) - 0) ^ 2
          + (r * Real.sin (theta0 + twoPi * (i : ℝ) / (n : ℝ)) - 0) ^ 2) = r
      rw [sub_zero, sub_zero, ring_point_sq, Real.sqrt_sq hr]

/-- C10 over the reals with `2 * pi`, at the constants of
`scenario_coex_ac_ax_quadsta`: radius 5, four ring stations, offset `pi / 8`,
station 3. -/
theorem ring_station_distance_witness :
    (0 : ℝ) ≤ 5 ∧
    ∃ p, (ringPlacement Real.cos Real.sin (2 * Real.pi) ⟨0, 0, 0⟩ 5 (Real.pi / 8) 4 [])[3]?
        = some p ∧
      (p.x - 0) ^ 2 + (p.y - 0) ^ 2 = (5 : ℝ) ^ 2 ∧
      Real.sqrt ((p.x - 0) ^ 2 + (p.y - 0) ^ 2) = 5 :=
  ⟨by norm_num,
    (ring_station_distance (2 * Real.pi) ⟨0, 0, 0⟩ 5 (by norm_num) (Real.pi / 8) 4
      (by decide) 3 (by decide)).1⟩

/-! ## Trigonometric bounds and the placed stations -/

theorem abs_cos_sub_cos_le (x y : ℝ) : |Real.cos x - Real.cos y| ≤ |x - y| := by
  rw [Real.cos_sub_cos, abs_mul, abs_mul, abs_neg, abs_two]
  have h1 : |Real.sin ((x + y) / 2)| ≤ 1 := Real.abs_sin_le_one _
  have h2 : |Real.sin ((x - y) / 2)| ≤ |(x - y) / 2| := Real.abs_sin_le_abs
  have h3 : |(x - y) / 2| = |x - y| / 2 := by rw [abs_div, abs_two]
  have h4 : 0 ≤ |Real.sin ((x - y) / 2)| := abs_nonneg _
  have h5 : 0 ≤ |Real.sin ((x + y) / 2)| := abs_nonneg _
  nlinarith

theorem abs_sin_sub_sin_le (x y : ℝ) : |Real.sin x - Real.sin y| ≤ |x - y| := by
  rw [Real.sin_sub_sin, abs_mul, abs_mul, abs_two]
  have h1 : |Real.cos ((x + y) / 2)| ≤ 1 := Real.abs_cos_le_one _
  have h2 : |Real.sin ((x - y) / 2)| ≤ |(x - y) / 2| := Real.abs_sin_le_abs
  have h3 : |(x - y) / 2| = |x - y| / 2 := by rw [abs_div, abs_two]
  have h4 : 0 ≤ |Real.sin ((x - y) / 2)| := abs_nonneg _
  have h5 : 0 ≤ |Real.cos ((x + y) / 2)| := abs_nonneg _
  nlinarith

theorem sqrt_two_bounds : (1.4142 : ℝ) < Real.sqrt 2 ∧ Real.sqrt 2 < 1.4143 := by
  constructor
  · rw [Real.lt_sqrt (by norm_num)]; norm_num
  · rw [Real.sqrt_lt' (by norm_num)]; norm_num

theorem cos_pi_div_eight_bounds :
    (0.9237 : ℝ) < Real.cos (Real.pi / 8) ∧ Real.cos (Real.pi / 8) < 0.9239 := by
  obtain ⟨hl, hu⟩ := sqrt_two_bounds
  rw [Real.cos_pi_div_eight]
  have h1 : (1.8474 : ℝ) < Real.sqrt (2 + Real.sqrt 2) := by
    rw [Real.lt_sqrt (by norm_num)]; norm_num; linarith
  have h2 : Real.sqrt (2 + Real.sqrt 2) < 1.8478 := by
    rw [Real.sqrt_lt' (by norm_num)]; norm_num; linarith
  constructor <;> linarith

theorem sin_pi_div_eight_bounds :
    (0.3825 : ℝ) < Real.sin (Real.pi / 8) ∧ Real.sin (Real.pi / 8) < 0.3827 := by
  obtain ⟨hl, hu⟩ := sqrt_two_bounds
  rw [Real.sin_pi_div_eight]
  have h1 : (0.765 : ℝ) < Real.sqrt (2 - Real.sqrt 2) := by
    rw [Real.lt_sqrt (by norm_num)]; norm_num; linarith
  have h2 : Real.sqrt (2 - Real.sqrt 2) < 0.7654 := by
    rw [Real.sqrt_lt' (by norm_num)]; norm_num; linarith
  constructor <;> linarith

theorem ringPlacement_station {α : Type} [Field α] (cos sin : α → α) (twoPi : α)
    (c : Vector α) (r theta0 : α) (n i : Nat) (hi : i < n) :
    (ringPlacement cos sin twoPi c r theta0 n [])[i]?
      = some ⟨c.x + r * cos (ringTheta twoPi theta0 n i),
              c.y + r * sin (ringTheta twoPi theta0 n i), c.z⟩ := by
  rw [ringPlacement_eq, List.nil_append, List.getElem?_map, List.getElem?_range hi]
  rfl

theorem theta0_near_pi_div_eight :
    |(Const.theta0 : ℝ) - Real.pi / 8| < 1 / 1000000 := by
  have h1 := Real.pi_gt_d6
  have h2 := Real.pi_lt_d6
  rw [abs_lt, Const.theta0]
  constructor <;> norm_num <;> linarith

theorem theta5_near_nine_pi_div_eight :
    |ringTheta (Const.twoPi : ℝ) Const.theta0 10 5 - 9 * Real.pi / 8| < 2 / 1000000 := by
  have h1 := Real.pi_gt_d6
  have h2 := Real.pi_lt_d6
  rw [abs_lt, ringTheta, Const.theta0, Const.twoPi]
  constructor <;> norm_num <;> linarith

theorem cos_nine_pi_div_eight : Real.cos (9 * Real.pi / 8) = -Real.cos (Real.pi / 8) := by
  rw [show 9 * Real.pi / 8 = Real.pi / 8 + Real.pi by ring, Real.cos_add_pi]

theorem sin_nine_pi_div_eight : Real.sin (9 * Real.pi / 8) = -Real.sin (Real.pi / 8) := by
  rw [show 9 * Real.pi / 8 = Real.pi / 8 + Real.pi by ring, Real.sin_add_pi]

theorem ringPlacementDivs_eq {α : Type} [Field α] (twoPi : α) (staCount : Nat) :
    ringPlacementDivs twoPi staCount
      = (List.range staCount).map (fun (i : Nat) => (twoPi * (i : α), staCount)) := by
  rw [ringPlacementDivs, foldl_append_singleton]
  simp

/-! ## Ring placement: angles, empty ring, anchor, scenario A -/

/-- C11: for a ring station count `n > 0` and `i + 1 < n`, ring stations `i`
and `i + 1` are placed with the angles `ringTheta … i` and `ringTheta … (i + 1)`,
whose difference is exactly `twoPi / n`, the later angle being the larger;
`twoPi` is the program's positive constant for `2 * pi`. -/
theorem ring_angle_step {α : Type} [LinearOrderedField α] (cos sin : α → α)
    (twoPi : α) (hpos : 0 < twoPi) (c : Vector α) (r theta0 : α)
    (n : Nat) (hn : 0 < n) (i : Nat) (hi : i + 1 < n) :
    (ringPlacement cos sin twoPi c r theta0 n [])[i]?
        = some ⟨c.x + r * cos (ringTheta twoPi theta0 n i),
                c.y + r * sin (ringTheta twoPi theta0 n i), c.z⟩ ∧
      (ringPlacement cos sin twoPi c r theta0 n [])[i + 1]?
        = some ⟨c.x + r * cos (ringTheta twoPi theta0 n (i + 1)),
                c.y + r * sin (ringTheta twoPi theta0 n (i + 1)), c.z⟩ ∧
      ringTheta twoPi theta0 n (i + 1) - ringTheta twoPi theta0 n i = twoPi / (n : α) ∧
      ringTheta twoPi theta0 n i < ringTheta twoPi theta0 n (i + 1) := by
  have hn0 : (0 : α) < (n : α) := by exact_mod_cast hn
  have hstep : ringTheta twoPi theta0 n (i + 1) - ringTheta twoPi theta0 n i
      = twoPi / (n : α) := by
    simp only [ringTheta, Nat.cast_add, Nat.cast_one]
    field_simp
    ring
  refine ⟨ringPlacement_station cos sin twoPi c r theta0 n i (by omega),
    ringPlacement_station cos sin twoPi c r theta0 n (i + 1) hi, hstep, ?_⟩
  have : 0 < twoPi / (n : α) := div_pos hpos hn0
  linarith

/-- C11 over the reals with `2 * pi`, at the constants of
`scenario_coex_a_ax_decsta`, for ring stations 4 and 5. -/
theorem ring_angle_step_witness :
    (0 : ℝ) < 2 * Real.pi ∧
      ringTheta (2 * Real.pi) (Real.pi / 8) 10 (4 + 1) - ringTheta (2 * Real.pi) (Real.pi / 8) 10 4
        = 2 * Real.pi / ((10 : Nat) : ℝ) ∧
      ringTheta (2 * Real.pi) (Real.pi / 8) 10 4
        < ringTheta (2 * Real.pi) (Real.pi / 8) 10 (4 + 1) :=
  ⟨by positivity,
    (ring_angle_step Real.cos Real.sin (2 * Real.pi) (by positivity) ⟨0, 0, 0⟩ 5
      (Real.pi / 8) 10 (by decide) 4 (by decide)).2.2⟩

/-- C12: with a ring station count of 0 the ring placement loop adds no
position and evaluates no division; for every count, each division the loop
evaluates has the count as divisor and that count is at least 1. -/
theorem ring_count_zero_empty {α : Type} [Field α] (cos sin : α → α) (twoPi : α)
    (c : Vector α) (r theta0 : α) (alloc : List (Vector α)) :
    ringPlacement cos sin twoPi c r theta0 0 alloc = alloc ∧
      ringPlacement cos sin twoPi c r theta0 0 [] = [] ∧
      ringPlacementOrigin cos sin twoPi r theta0 0 alloc = alloc ∧
      ringPlacementDivs twoPi 0 = [] ∧
      ∀ n : Nat, ∀ d ∈ ringPlacementDivs twoPi n, d.2 = n ∧ 1 ≤ d.2 := by
  refine ⟨rfl, rfl, rfl, rfl, ?_⟩
  intro n d hd
  rw [ringPlacementDivs_eq, List.mem_map] at hd
  obtain ⟨i, hi, rfl⟩ := hd
  rw [List.mem_range] at hi
  exact ⟨rfl, by show 1 ≤ n; omega⟩

/-- C12 at the literal `twoPi` of the programs: the third division of a ring
of three stations, `twoPi * 2` by the count 3. -/
theorem ring_count_zero_empty_witness :
    ((Const.twoPi : ℚ) * 2, 3) ∈ ringPlacementDivs (Const.twoPi : ℚ) 3 ∧
      ((Const.twoPi : ℚ) * 2, 3).2 = 3 ∧ 1 ≤ ((Const.twoPi : ℚ) * 2, 3).2 :=
  have hmem : ((Const.twoPi : ℚ) * 2, 3) ∈ ringPlacementDivs (Const.twoPi : ℚ) 3 := by
    simp [ringPlacementDivs, List.range_succ]
  ⟨hmem,
    (ring_count_zero_empty (fun x => x) (fun x => x) (Const.twoPi : ℚ) ⟨0, 0, 0⟩ 5
      Const.theta0 []).2.2.2.2 3 ((Const.twoPi : ℚ) * 2, 3) hmem⟩

/-- C13: the primary station of a network is placed at
`(c.x + r, c.y, c.z)`: displaced from the centre by `r` along `x` only, hence
for `r ≥ 0` on the `+x` axis at distance `r`; in the `decsta` allocators this
entry is the same for every offset `theta0`, every `twoPi`, ring centre and
ring count; for `r = 2` and centre `(0, 0, 0)` it is `(2, 0, 0)`, the `staPos`
of `scenario_single_be`. -/
theorem anchor_on_x_axis (c : Vector ℝ) (r : ℝ) (hr : 0 ≤ r) :
    anchorPlacement c r = ⟨c.x + r, c.y, c.z⟩ ∧
      (anchorPlacement c r).x - c.x = r ∧ 0 ≤ (anchorPlacement c r).x - c.x ∧
      (anchorPlacement c r).y = c.y ∧ (anchorPlacement c r).z = c.z ∧
      Real.sqrt (((anchorPlacement c r).x - c.x) ^ 2 + ((anchorPlacement c r).y - c.y) ^ 2
        + ((anchorPlacement c r).z - c.z) ^ 2) = r ∧
      (∀ (cos sin : ℝ → ℝ) (twoPi theta0 : ℝ) (apRingPos : Vector ℝ) (n : Nat),
        (decstaPositions cos sin twoPi c apRingPos r theta0 n)[2]?
          = some ⟨c.x + r, c.y, c.z⟩) ∧
      anchorPlacement (⟨0, 0, 0⟩ : Vector ℝ) 2 = ⟨2, 0, 0⟩ ∧
      (positions_single_be : List (Vector ℝ))[1]? = some ⟨2, 0, 0⟩ := by
  refine ⟨rfl, ?_, ?_, rfl, rfl, ?_, ?_, ?_, rfl⟩
  · simp [anchorPlacement]
  · simpa [anchorPlacement] using hr
  · simp only [anchorPlacement, add_sub_cancel_left, sub_self]
    norm_num
    exact Real.sqrt_sq hr
  · intro cos sin twoPi theta0 apRingPos n
    rw [decstaPositions, ringPlacement_eq]
    simp [anchorPlacement]
  · simp [anchorPlacement]

/-- C13 at the constants of `scenario_coex_a_be_decsta`: radius 2, legacy
access point at the origin, ten ring stations, offset and `twoPi` as written. -/
theorem anchor_on_x_axis_witness :
    (0 : ℝ) ≤ 2 ∧
      (decstaPositions Real.cos Real.sin Const.twoPi ⟨0, 0, 0⟩ ⟨0, 0, 0⟩ 2 Const.theta0 10)[2]?
        = some ⟨(0 : ℝ) + 2, 0, 0⟩ :=
  ⟨by norm_num,
    (anchor_on_x_axis ⟨0, 0, 0⟩ 2 (by norm_num)).2.2.2.2.2.2.1 Real.cos Real.sin
      Const.twoPi Const.theta0 ⟨0, 0, 0⟩ 10⟩

/-- C14: with radius 5, ten ring stations, centre `(0, 0, 0)` and offset
`pi / 8` (`twoPi` being `2 * pi`), ring station 0 is at angle 22.5 degrees,
at `(5 cos 22.5°, 5 sin 22.5°)`, within 0.001 of `(4.619, 1.913)`, and ring
station 5 is at angle 202.5 degrees, within 0.001 of `(-4.619, -1.913)`. The
same bounds hold for the positions computed from the literals
`6.283185307179586` and `0.39269908169872414` of the program. -/
theorem scenario_a_ring_positions :
    (∃ p0 p5 : Vector ℝ,
      (ringPlacement Real.cos Real.sin (2 * Real.pi) ⟨0, 0, 0⟩ 5 (Real.pi / 8) 10 [])[0]?
        = some p0 ∧
      (ringPlacement Real.cos Real.sin (2 * Real.pi) ⟨0, 0, 0⟩ 5 (Real.pi / 8) 10 [])[5]?
        = some p5 ∧
      ringTheta (2 * Real.pi) (Real.pi / 8) 10 0 = 22.5 * Real.pi / 180 ∧
      ringTheta (2 * Real.pi) (Real.pi / 8) 10 5 = 202.5 * Real.pi / 180 ∧
      p0.x = 5 * Real.cos (22.5 * Real.pi / 180) ∧
      p0.y = 5 * Real.sin (22.5 * Real.pi / 180) ∧
      |p0.x - 4.619| < 0.001 ∧ |p0.y - 1.913| < 0.001 ∧
      p5.x = 5 * Real.cos (202.5 * Real.pi / 180) ∧
      p5.y = 5 * Real.sin (202.5 * Real.pi / 180) ∧
      |p5.x - (-4.619)| < 0.001 ∧ |p5.y - (-1.913)| < 0.001) ∧
    (∃ q0 q5 : Vector ℝ,
      (ringPlacement Real.cos Real.sin Const.twoPi ⟨0, 0, 0⟩ 5 Const.theta0 10 [])[0]?
        = some q0 ∧
      (ringPlacement Real.cos Real.sin Const.twoPi ⟨0, 0, 0⟩ 5 Const.theta0 10 [])[5]?
        = some q5 ∧
      |q0.x - 4.619| < 0.001 ∧ |q0.y - 1.913| < 0.001 ∧
      |q5.x - (-4.619)| < 0.001 ∧ |q5.y - (-1.913)| < 0.001) := by
  obtain ⟨hc1, hc2⟩ := cos_pi_div_eight_bounds
  obtain ⟨hs1, hs2⟩ := sin_pi_div_eight_bounds
  have ht0 : ringTheta (2 * Real.pi) (Real.pi / 8) 10 0 = Real.pi / 8 := by
    simp [ringTheta]
  have ht5 : ringTheta (2 * Real.pi) (Real.pi / 8) 10 5 = 9 * Real.pi / 8 := by
    simp only [ringTheta]; push_cast; ring
  have hd0 : (22.5 : ℝ) * Real.pi / 180 = Real.pi / 8 := by ring
  have hd5 : (202.5 : ℝ) * Real.pi / 180 = 9 * Real.pi / 8 := by ring
  constructor
  · refine ⟨_, _, ringPlacement_station _ _ _ _ _ _ 10 0 (by decide),
      ringPlacement_station _ _ _ _ _ _ 10 5 (by decide), ?_, ?_, ?_, ?_, ?_, ?_, ?_, ?_, ?_, ?_⟩
    · rw [ht0, hd0]
    · rw [ht5, hd5]
    · show (0 : ℝ) + 5 * Real.cos (ringTheta (2 * Real.pi) (Real.pi / 8) 10 0) = _
      rw [ht0, hd0, zero_add]
    · show (0 : ℝ) + 5 * Real.sin (ringTheta (2 * Real.pi) (Real.pi / 8) 10 0) = _
      rw [ht0, hd0, zero_add]
    · show |(0 : ℝ) + 5 * Real.cos (ringTheta (2 * Real.pi) (Real.pi / 8) 10 0) - 4.619| < _
      rw [ht0, abs_lt]; constructor <;> linarith
    · show |(0 : ℝ) + 5 * Real.sin (ringTheta (2 * Real.pi) (Real.pi / 8) 10 0) - 1.913| < _
      rw [ht0, abs_lt]; constructor <;> linarith
    · show (0 : ℝ) + 5 * Real.cos (ringTheta (2 * Real.pi) (Real.pi / 8) 10 5) = _
      rw [ht5, hd5, zero_add]
    · show (0 : ℝ) + 5 * Real.sin (ringTheta (2 * Real.pi) (Real.pi / 8) 10 5) = _
      rw [ht5, hd5, zero_add]
    · show |(0 : ℝ) + 5 * Real.cos (ringTheta (2 * Real.pi) (Real.pi / 8) 10 5) - -4.619| < _
      rw [ht5, cos_nine_pi_div_eight, abs_lt]; constructor <;> linarith
    · show |(0 : ℝ) + 5 * Real.sin (ringTheta (2 * Real.pi) (Real.pi / 8) 10 5) - -1.913| < _
      rw [ht5, sin_nine_pi_div_eight, abs_lt]; constructor <;> linarith
  · have hq0 : ringTheta (Const.twoPi : ℝ) Const.theta0 10 0 = Const.theta0 := by
      simp [ringTheta]
    have e0c := abs_lt.1 (lt_of_le_of_lt
      (abs_cos_sub_cos_le (Const.theta0 : ℝ) (Real.pi / 8)) theta0_near_pi_div_eight)
    have e0s := abs_lt.1 (lt_of_le_of_lt
      (abs_sin_sub_sin_le (Const.theta0 : ℝ) (Real.pi / 8)) theta0_near_pi_div_eight)
    have e5c := abs_lt.1 (lt_of_le_of_lt
      (abs_cos_sub_cos_le (ringTheta (Const.twoPi : ℝ) Const.theta0 10 5) (9 * Real.pi / 8))
      theta5_near_nine_pi_div_eight)
    have e5s := abs_lt.1 (lt_of_le_of_lt
      (abs_sin_sub_sin_le (ringTheta (Const.twoPi : ℝ) Const.theta0 10 5) (9 * Real.pi / 8))
      theta5_near_nine_pi_div_eight)
    rw [cos_nine_pi_div_eight] at e5c
    rw [sin_nine_pi_div_eight] at e5s
    refine ⟨_, _, ringPlacement_station _ _ _ _ _ _ 10 0 (by decide),
      ringPlacement_station _ _ _ _ _ _ 10 5 (by decide), ?_, ?_, ?_, ?_⟩
    · show |(0 : ℝ) + 5 * Real.cos (ringTheta (Const.twoPi : ℝ) Const.theta0 10 0) - 4.619| < _
      rw [hq0, abs_lt]; constructor <;> linarith [e0c.1, e0c.2]
    · show |(0 : ℝ) + 5 * Real.sin (ringTheta (Const.twoPi : ℝ) Const.theta0 10 0) - 1.913| < _
      rw [hq0, abs_lt]; constructor <;> linarith [e0s.1, e0s.2]
    · show |(0 : ℝ) + 5 * Real.cos (ringTheta (Const.twoPi : ℝ) Const.theta0 10 5) - -4.619| < _
      rw [abs_lt]; constructor <;> linarith [e5c.1, e5c.2]
    · show |(0 : ℝ) + 5 * Real.sin (ringTheta (Const.twoPi : ℝ) Const.theta0 10 5) - -1.913| < _
      rw [abs_lt]; constructor <;> linarith [e5s.1, e5s.2]

/-! ## Further facts about the reduction -/

section ReductionMore

variable {α : Type} [LinearOrderedField α]

theorem updateMetricDivs_safe (simulationTime : α) (hT : 0 < simulationTime)
    (flow : FlowRecord α) (h32 : flow.rxPackets < 2 ^ 32) :
    ∀ e ∈ updateMetricDivs simulationTime flow,
      0 < e.divisor ∧
      (e.which = Quot3.throughput → e.divisor = simulationTime * 10 ^ 6) ∧
      (e.which = Quot3.delay → 1 ≤ flow.rxPackets ∧ e.divisor = (flow.rxPackets : α)) ∧
      (e.which = Quot3.jitter → 2 ≤ flow.rxPackets ∧
        u32Sub flow.rxPackets 1 = flow.rxPackets - 1 ∧
        u32Sub flow.rxPackets 1 ≠ 2 ^ 32 - 1 ∧
        e.divisor = ((u32Sub flow.rxPackets 1 : Nat) : α)) := by
  intro e he
  have hTd : (0 : α) < simulationTime * 1000000 := by positivity
  have hTe : simulationTime * 1000000 = simulationTime * 10 ^ 6 := by norm_num
  unfold updateMetricDivs at he
  by_cases h0 : 0 < flow.rxPackets
  · have hrx : (0 : α) < (flow.rxPackets : α) := by exact_mod_cast h0
    by_cases h1 : 1 < flow.rxPackets
    · have hsub := u32Sub_one flow.rxPackets (by omega) h32
      have hj : (0 : α) < ((u32Sub flow.rxPackets 1 : Nat) : α) := by
        rw [hsub]; exact_mod_cast (by omega : 0 < flow.rxPackets - 1)
      simp only [h0, h1, if_true, List.mem_cons, List.mem_singleton, List.not_mem_nil,
        or_false] at he
      rcases he with rfl | rfl | rfl
      · exact ⟨hTd, fun _ => hTe, by simp, by simp⟩
      · exact ⟨hrx, by simp, fun _ => ⟨h0, rfl⟩, by simp⟩
      · refine ⟨hj, by simp, by simp, fun _ => ⟨h1, hsub, ?_, rfl⟩⟩
        rw [hsub]; omega
    · simp only [h0, h1, if_true, if_false, List.mem_cons, List.mem_singleton,
        List.not_mem_nil, or_false] at he
      rcases he with rfl | rfl
      · exact ⟨hTd, fun _ => hTe, by simp, by simp⟩
      · exact ⟨hrx, by simp, fun _ => ⟨h0, rfl⟩, by simp⟩
  · simp [h0] at he

theorem mem_reduceDivs (simulationTime : α) (sc : Scenario) (flows : List (FlowRecord α))
    (e : DivEval α) (he : e ∈ sc.reduceDivs simulationTime flows) :
    ∃ f ∈ flows, e ∈ updateMetricDivs simulationTime f := by
  rw [Scenario.reduceDivs, List.mem_flatMap] at he
  obtain ⟨f, hf, hef⟩ := he
  rw [Scenario.stepDivs, List.mem_flatten] at hef
  obtain ⟨l, hl, hel⟩ := hef
  rw [List.eq_of_mem_replicate hl] at hel
  exact ⟨f, hf, hel⟩

theorem chainStep_getElem?_of_ne (simulationTime : α) (flow : FlowRecord α) (p : Nat)
    (hne : flow.destinationPort ≠ p) :
    ∀ (ps : List Nat) (ms : List (Metric α)) (k : Nat), ps[k]? = some p →
      (chainStep simulationTime ps flow ms)[k]? = ms[k]?
  | [], _, _, hk => by simp at hk
  | _ :: _, [], _, _ => by simp [chainStep]
  | q :: ps, m :: ms, 0, hk => by
    have hq : q = p := by simpa using hk
    have : flow.destinationPort ≠ q := hq ▸ hne
    simp [chainStep, this]
  | q :: ps, m :: ms, k + 1, hk => by
    have hk' : ps[k]? = some p := by simpa using hk
    by_cases hq : flow.destinationPort = q
    · simp [chainStep, hq]
    · simp [chainStep, hq, chainStep_getElem?_of_ne simulationTime flow p hne ps ms k hk']

theorem ringScan_getElem?_of_ne (simulationTime : α) (flow : FlowRecord α) (p : Nat)
    (hne : flow.destinationPort ≠ p) :
    ∀ (ps : List Nat) (ms : List (Metric α)) (k : Nat), ps[k]? = some p →
      (ringScan simulationTime ps flow ms)[k]? = ms[k]?
  | [], _, _, hk => by simp at hk
  | _ :: _, [], _, _ => by simp [ringScan]
  | q :: ps, m :: ms, 0, hk => by
    have hq : q = p := by simpa using hk
    have : flow.destinationPort ≠ q := hq ▸ hne
    simp [ringScan, this]
  | q :: ps, m :: ms, k + 1, hk => by
    have hk' : ps[k]? = some p := by simpa using hk
    simp [ringScan, ringScan_getElem?_of_ne simulationTime flow p hne ps ms k hk']

theorem step_getElem?_of_ne (simulationTime : α) (sc : Scenario) (flow : FlowRecord α)
    (p : Nat) (hne : flow.destinationPort ≠ p) (ms : List (Metric α)) (k : Nat)
    (hk : sc.ports[k]? = some p) :
    (sc.step simulationTime flow ms)[k]? = ms[k]? := by
  cases sc with
  | chain ports => exact chainStep_getElem?_of_ne simulationTime flow p hne ports ms k hk
  | ring ports => exact ringScan_getElem?_of_ne simulationTime flow p hne ports ms k hk
  | legacyRing portLegacy ringPorts =>
    cases ms with
    | nil => rfl
    | cons m ms =>
      cases k with
      | zero =>
        have hq : portLegacy = p := by simpa [Scenario.ports] using hk
        have : flow.destinationPort ≠ portLegacy := hq ▸ hne
        simp [Scenario.step, decstaStep, this]
      | succ k =>
        have hk' : ringPorts[k]? = some p := by simpa [Scenario.ports] using hk
        by_cases hq : flow.destinationPort = portLegacy
        · simp [Scenario.step, decstaStep, hq]
        · simp [Scenario.step, decstaStep, hq,
            ringScan_getElem?_of_ne simulationTime flow p hne ringPorts ms k hk']

theorem reduceFrom_getElem?_of_no_record (simulationTime : α) (sc : Scenario) (p k : Nat)
    (hk : sc.ports[k]? = some p) :
    ∀ (flows : List (FlowRecord α)) (ms : List (Metric α)),
      (∀ f ∈ flows, f.destinationPort ≠ p) →
      (sc.reduceFrom simulationTime flows ms)[k]? = ms[k]?
  | [], _, _ => rfl
  | f :: flows, ms, h => by
    have ih := reduceFrom_getElem?_of_no_record simulationTime sc p k hk flows
      (sc.step simulationTime f ms) (fun g hg => h g (List.mem_cons_of_mem _ hg))
    simp only [Scenario.reduceFrom, List.foldl_cons] at ih ⊢
    rw [ih, step_getElem?_of_ne simulationTime sc f p (h f (by simp)) ms k hk]

end ReductionMore

/-! ## Concrete scenario C, safety of the divisions, untouched stations -/

/-- C15 as stated fails: for `simulationTime = 260` and the record of
scenario C the reduction of `scenario_single_be` gives throughput `1472 / 325`,
whose fourth decimal place is 2 (`4.5292…`), more than `0.0005` away from
`4.5298`. -/
theorem scenario_c_throughput_counterexample :
    (scenario_single_be.reduce (260 : ℚ) [flowScenarioC])[0]?
        = some ⟨1472 / 325, 1 / 20000, 2 / 99999⟩ ∧
      ⌊(1472 / 325 : ℚ) * 10 ^ 4⌋ = 45292 ∧
      ¬ (|(1472 / 325 : ℚ) - 4.5298| ≤ 0.0005) := by
  refine ⟨?_, ?_, ?_⟩
  · simp [Scenario.reduce, Scenario.reduceFrom, Scenario.step, scenario_single_be,
      Scenario.ports, chainStep, updateMetric, flowScenarioC, Metric.zero, u32Sub]
    norm_num
  · rw [Int.floor_eq_iff]
    norm_num
  · rw [not_le, lt_abs]
    right
    norm_num

/-- C15, as amended: for `simulationTime = 260` a record with 100000 packets
and 147200000 bytes yields throughput `147200000 * 8 / (260 * 10^6) = 1472 / 325`,
which agrees with `4.5292` to four decimal places; so for the only station of
`scenario_single_be` and for the legacy station of `scenario_coex_a_ax_decsta`. -/
theorem scenario_c_throughput :
    (∃ m : Metric ℚ, (scenario_single_be.reduce (260 : ℚ) [flowScenarioC])[0]? = some m ∧
      m.throughput = (flowScenarioC.rxBytes : ℚ) * 8 / (260 * 10 ^ 6) ∧
      m.throughput = 1472 / 325 ∧
      ⌊m.throughput * 10 ^ 4⌋ = 45292 ∧
      |m.throughput - 4.5292| < 0.00005) ∧
    (∃ m : Metric ℚ, ((scenario_coex_a_ax_decsta (List.range' 9001 10)).reduce (260 : ℚ)
        [flowScenarioC])[0]? = some m ∧
      m.throughput = 1472 / 325) := by
  have hone : (scenario_single_be.reduce (260 : ℚ) [flowScenarioC])[0]?
      = some (updateMetric 260 flowScenarioC Metric.zero) :=
    reduce_station 260 scenario_single_be (by decide) [flowScenarioC] 0 9000 rfl
  have htwo : ((scenario_coex_a_ax_decsta (List.range' 9001 10)).reduce (260 : ℚ)
      [flowScenarioC])[0]? = some (updateMetric 260 flowScenarioC Metric.zero) :=
    reduce_station 260 (scenario_coex_a_ax_decsta (List.range' 9001 10))
      (nodup_legacy_range 10) [flowScenarioC] 0 9000 rfl
  have hval : (updateMetric (260 : ℚ) flowScenarioC Metric.zero).throughput = 1472 / 325 := by
    simp [updateMetric, flowScenarioC]
    norm_num
  refine ⟨⟨_, hone, ?_, hval, ?_, ?_⟩, ⟨_, htwo, hval⟩⟩
  · rw [hval]; simp [flowScenarioC]; norm_num
  · rw [hval, Int.floor_eq_iff]; norm_num
  · rw [hval, abs_lt]; constructor <;> norm_num

/-- C16: the record of scenario C (100000 packets, delay sum 5 s, jitter sum
2 s) yields `avgDelay = 0.00005` exactly, printed as `0.05` ms, and
`avgJitter = 2 / 99999`, within `10^-9` of `0.00002`, printed as
`2000 / 99999` ms, within `10^-6` of `0.02`. -/
theorem scenario_c_delay_jitter :
    ∃ m : Metric ℚ, (scenario_single_be.reduce (260 : ℚ) [flowScenarioC])[0]? = some m ∧
      m.avgDelay = 0.00005 ∧
      m.avgJitter = 2 / 99999 ∧
      |m.avgJitter - 0.00002| < 1 / 10 ^ 9 ∧
      (∃ line : ResultLine ℚ, chainReport labels_single_be [m] = [line] ∧
        line.label = "802.11be network" ∧
        line.delayMs = 0.05 ∧
        line.jitterMs = 2000 / 99999 ∧
        |line.jitterMs - 0.02| < 1 / 10 ^ 6) := by
  have hone : (scenario_single_be.reduce (260 : ℚ) [flowScenarioC])[0]?
      = some (updateMetric 260 flowScenarioC Metric.zero) :=
    reduce_station 260 scenario_single_be (by decide) [flowScenarioC] 0 9000 rfl
  have hm : updateMetric (260 : ℚ) flowScenarioC Metric.zero
      = ⟨1472 / 325, 1 / 20000, 2 / 99999⟩ := by
    simp [updateMetric, flowScenarioC, u32Sub]
    norm_num
  rw [hm] at hone
  refine ⟨_, hone, by norm_num, rfl, ?_,
    ⟨resultLine "802.11be network" ⟨1472 / 325, 1 / 20000, 2 / 99999⟩, rfl, rfl, ?_, ?_, ?_⟩⟩
  · rw [abs_lt]; constructor <;> norm_num
  · simp [resultLine]; norm_num
  · simp [resultLine]; norm_num
  · simp only [resultLine]; rw [abs_lt]; constructor <;> norm_num

section SafetyClaims

variable {α : Type} [LinearOrderedField α]

/-- C17: for a positive `simulationTime` and flow records whose `rxPackets`
are 32-bit values, every division the reduction loop evaluates belongs to some
record `f` and has a positive divisor: the throughput divisor is
`simulationTime * 10^6`; a delay quotient is evaluated only with
`rxPackets ≥ 1`, by `rxPackets`; a jitter quotient only with `rxPackets ≥ 2`,
by `rxPackets - 1`, computed without wrap-around (it is not `2^32 - 1`). -/
theorem reduction_divisions_safe (sc : Scenario) (simulationTime : α)
    (hT : 0 < simulationTime) (flows : List (FlowRecord α))
    (h32 : ∀ f ∈ flows, f.rxPackets < 2 ^ 32) :
    ∀ e ∈ sc.reduceDivs simulationTime flows, ∃ f ∈ flows,
      e ∈ updateMetricDivs simulationTime f ∧
      e.divisor ≠ 0 ∧ 0 < e.divisor ∧
      (e.which = Quot3.throughput → e.divisor = simulationTime * 10 ^ 6) ∧
      (e.which = Quot3.delay → 1 ≤ f.rxPackets ∧ e.divisor = (f.rxPackets : α)) ∧
      (e.which = Quot3.jitter → 2 ≤ f.rxPackets ∧
        u32Sub f.rxPackets 1 = f.rxPackets - 1 ∧
        u32Sub f.rxPackets 1 ≠ 2 ^ 32 - 1 ∧
        e.divisor = ((u32Sub f.rxPackets 1 : Nat) : α)) := by
  intro e he
  obtain ⟨f, hf, hef⟩ := mem_reduceDivs simulationTime sc flows e he
  obtain ⟨h1, h2, h3, h4⟩ := updateMetricDivs_safe simulationTime hT f (h32 f hf) e hef
  exact ⟨f, hf, hef, ne_of_gt h1, h1, h2, h3, h4⟩

/-- C18: the results start all-zero, so an empty record set leaves every
station all-zero, and a station whose port is the destination port of no flow
record ends with `throughput = avgDelay = avgJitter = 0`. -/
theorem untouched_station_all_zero (sc : Scenario) (simulationTime : α)
    (flows : List (FlowRecord α)) (k p : Nat) (hk : sc.ports[k]? = some p)
    (hno : ∀ f ∈ flows, f.destinationPort ≠ p) :
    sc.reduce simulationTime ([] : List (FlowRecord α))
        = List.replicate sc.ports.length Metric.zero ∧
      (∀ j : Nat, j < sc.ports.length →
        (sc.reduce simulationTime ([] : List (FlowRecord α)))[j]? = some Metric.zero) ∧
      (sc.reduce simulationTime flows)[k]? = some Metric.zero ∧
      ∃ m, (sc.reduce simulationTime flows)[k]? = some m ∧
        m.throughput = 0 ∧ m.avgDelay = 0 ∧ m.avgJitter = 0 := by
  have hklt : k < sc.ports.length := by
    rcases Nat.lt_or_ge k sc.ports.length with h | h
    · exact h
    · rw [List.getElem?_eq_none h] at hk; exact absurd hk (by simp)
  have hz : (sc.reduce simulationTime flows)[k]? = some Metric.zero := by
    rw [Scenario.reduce, reduceFrom_getElem?_of_no_record simulationTime sc p k hk flows _ hno]
    simp [hklt]
  refine ⟨rfl, ?_, hz, ⟨_, hz, rfl, rfl, rfl⟩⟩
  intro j hj
  simp [Scenario.reduce, Scenario.reduceFrom, hj]

end SafetyClaims

/-- C17 at `scenario_coex_ax_2sta` with a five-packet, a one-packet and a
zero-packet flow to port 9000 and a flow to no station: the jitter quotient
`2 / 4` of the five-packet flow. -/
theorem reduction_divisions_safe_witness :
    (⟨Quot3.jitter, 2, 4⟩ : DivEval ℚ)
        ∈ scenario_coex_ax_2sta.reduceDivs (260 : ℚ) [flowMany, flowOne, flowNone, flowStray] ∧
    ∃ f ∈ [flowMany, flowOne, flowNone, flowStray],
      (⟨Quot3.jitter, 2, 4⟩ : DivEval ℚ) ∈ updateMetricDivs 260 f ∧
      (4 : ℚ) ≠ 0 ∧ (0 : ℚ) < 4 ∧
      (Quot3.jitter = Quot3.throughput → (4 : ℚ) = 260 * 10 ^ 6) ∧
      (Quot3.jitter = Quot3.delay → 1 ≤ f.rxPackets ∧ (4 : ℚ) = (f.rxPackets : ℚ)) ∧
      (Quot3.jitter = Quot3.jitter → 2 ≤ f.rxPackets ∧
        u32Sub f.rxPackets 1 = f.rxPackets - 1 ∧
        u32Sub f.rxPackets 1 ≠ 2 ^ 32 - 1 ∧
        (4 : ℚ) = ((u32Sub f.rxPackets 1 : Nat) : ℚ)) :=
  have hmem : (⟨Quot3.jitter, 2, 4⟩ : DivEval ℚ)
      ∈ scenario_coex_ax_2sta.reduceDivs (260 : ℚ)
        [flowMany, flowOne, flowNone, flowStray] := by
    simp [Scenario.reduceDivs, Scenario.stepDivs, Scenario.blockRuns, scenario_coex_ax_2sta,
      updateMetricDivs, flowMany, flowOne, flowNone, flowStray, u32Sub]
  ⟨hmem,
    reduction_divisions_safe scenario_coex_ax_2sta 260 (by norm_num)
      [flowMany, flowOne, flowNone, flowStray]
      (by
        intro f hf
        simp only [List.mem_cons, List.mem_singleton, List.not_mem_nil, or_false] at hf
        rcases hf with rfl | rfl | rfl | rfl <;> decide)
      ⟨Quot3.jitter, 2, 4⟩ hmem⟩

/-- C18 at `scenario_coex_be_3sta` with ports 9000 … 9002: flows to ports 9002
and 53 leave station 1 (port 9001) all-zero. -/
theorem untouched_station_all_zero_witness :
    ((scenario_coex_be_3sta [9000, 9001, 9002]).reduce (260 : ℚ)
        [flowRing, flowStray])[1]? = some Metric.zero :=
  (untouched_station_all_zero (scenario_coex_be_3sta [9000, 9001, 9002]) 260
    [flowRing, flowStray] 1 9001 rfl
    (by
      intro f hf
      simp only [List.mem_cons, List.mem_singleton, List.not_mem_nil, or_false] at hf
      rcases hf with rfl | rfl <;> decide)).2.2.1

/-! ## The results block: lines and labels -/

section ReportLemmas

variable {α : Type} [LinearOrderedField α]

theorem staLines_eq (standard : String) (staCount : Nat) (ms : List (Metric α))
    (out : List (ResultLine α)) :
    staLines standard staCount ms out
      = out ++ (List.range staCount).map (fun (i : Nat) =>
          resultLine (standard ++ " STA #" ++ toString ((i + 1) % 2 ^ 32))
            (ms.getD i Metric.zero)) := by
  rw [staLines, foldl_append_singleton]

theorem staLines_of_map (standard : String) (n b : Nat) (hn : n < 2 ^ 32)
    (g : Nat → Metric α) (out : List (ResultLine α)) :
    staLines standard n ((List.range' b n).map g) out
      = out ++ (List.range n).map (fun (i : Nat) =>
          resultLine (standard ++ " STA #" ++ toString (i + 1)) (g (b + i))) := by
  rw [staLines_eq]
  congr 1
  apply List.map_congr_left
  intro i hi
  rw [List.mem_range] at hi
  have hmod : (i + 1) % 2 ^ 32 = i + 1 := Nat.mod_eq_of_lt (by omega)
  have hget : ((List.range' b n).map g).getD i Metric.zero = g (b + i) := by
    simp [List.getD, List.getElem?_map, List.getElem?_range', hi]
  rw [hmod, hget]

end ReportLemmas

/-! ## The results block of the `decsta` scenarios -/

section ReportClaims

variable {α : Type} [LinearOrderedField α]

/-- C19: the results block has one line per station in the order networks
and stations are defined. In `scenario_coex_a_ax_decsta` (and
`scenario_coex_a_be_decsta`) with `n` ring stations it is the legacy line,
labelled with the network name, followed by `n` lines of which the one at
index `i` is labelled `STA #(i+1)` and shows the metric of the station with
port `9001 + i`; `scenario_coex_be_3sta` has the numbered lines only, for
ports `9000 + i`; in the scenarios with named stations the single station of
a network is labelled with the network name and the stations of the 802.11ax
network with `STA #(i+1)` for port `9001 + i`. -/
theorem results_block_lines (simulationTime : α) (flows : List (FlowRecord α))
    (n m : Nat) (hn : 9001 + n ≤ 65535) (hm : 9000 + m ≤ 65535) :
    (∃ legacy ring,
      (scenario_coex_a_ax_decsta (List.range' 9001 n)).reduce simulationTime flows
        = legacy :: ring ∧
      report_coex_a_ax_decsta n (legacy, ring)
        = resultLine "802.11a network" (stationMetric simulationTime 9000 flows Metric.zero)
          :: (List.range n).map (fun (i : Nat) =>
            resultLine ("802.11ax STA #" ++ toString (i + 1))
              (stationMetric simulationTime (9001 + i) flows Metric.zero))) ∧
    (∃ legacy ring,
      (scenario_coex_a_be_decsta n).reduce simulationTime flows = legacy :: ring ∧
      report_coex_a_be_decsta n (legacy, ring)
        = resultLine "802.11a network" (stationMetric simulationTime 9000 flows Metric.zero)
          :: (List.range n).map (fun (i : Nat) =>
            resultLine ("802.11be STA #" ++ toString (i + 1))
              (stationMetric simulationTime (9001 + i) flows Metric.zero))) ∧
    report_coex_be_3sta m
        ((scenario_coex_be_3sta (List.range' 9000 m)).reduce simulationTime flows)
      = (List.range m).map (fun (i : Nat) =>
          resultLine ("802.11be STA #" ++ toString (i + 1))
            (stationMetric simulationTime (9000 + i) flows Metric.zero)) ∧
    chainReport labels_coex_ac_ax_quadsta
        (scenario_coex_ac_ax_quadsta.reduce simulationTime flows)
      = resultLine "802.11ac network" (stationMetric simulationTime 9000 flows Metric.zero)
        :: (List.range 4).map (fun (i : Nat) =>
          resultLine ("802.11ax STA #" ++ toString (i + 1))
            (stationMetric simulationTime (9001 + i) flows Metric.zero)) ∧
    chainReport labels_coex_n_ax_dualsta
        (scenario_coex_n_ax_dualsta.reduce simulationTime flows)
      = resultLine "802.11n network" (stationMetric simulationTime 9000 flows Metric.zero)
        :: (List.range 2).map (fun (i : Nat) =>
          resultLine ("802.11ax STA #" ++ toString (i + 1))
            (stationMetric simulationTime (9001 + i) flows Metric.zero)) ∧
    chainReport labels_coex_ac_be (scenario_coex_ac_be.reduce simulationTime flows)
      = [resultLine "802.11ac network" (stationMetric simulationTime 9000 flows Metric.zero),
         resultLine "802.11be network" (stationMetric simulationTime 9001 flows Metric.zero)] ∧
    chainReport labels_coex_ax_2sta (scenario_coex_ax_2sta.reduce simulationTime flows)
      = [resultLine "802.11ax network 1" (stationMetric simulationTime 9000 flows Metric.zero),
         resultLine "802.11ax network" (stationMetric simulationTime 9001 flows Metric.zero)] ∧
    chainReport labels_single_be (scenario_single_be.reduce simulationTime flows)
      = [resultLine "802.11be network"
          (stationMetric simulationTime 9000 flows Metric.zero)] := by
  have hdec : ∀ (network standard : String),
      decstaReport network standard n
          (stationMetric simulationTime 9000 flows Metric.zero,
            (List.range' 9001 n).map
              (fun p => stationMetric simulationTime p flows Metric.zero))
        = resultLine network (stationMetric simulationTime 9000 flows Metric.zero)
          :: (List.range n).map (fun (i : Nat) =>
            resultLine (standard ++ " STA #" ++ toString (i + 1))
              (stationMetric simulationTime (9001 + i) flows Metric.zero)) := by
    intro network standard
    rw [decstaReport, staLines_of_map standard n 9001 (by omega)]
    rfl
  refine ⟨?_, ?_, ?_, ?_, ?_, ?_, ?_, ?_⟩
  · refine ⟨_, _, ?_, hdec "802.11a network" "802.11ax"⟩
    rw [reduce_eq_map simulationTime (scenario_coex_a_ax_decsta (List.range' 9001 n))
      (nodup_legacy_range n)]
    rfl
  · refine ⟨_, _, ?_, hdec "802.11a network" "802.11be"⟩
    rw [reduce_eq_map simulationTime _
      (by rw [scenario_coex_a_be_decsta, bePorts_eq n hn]; exact nodup_legacy_range n),
      scenario_coex_a_be_decsta, bePorts_eq n hn]
    rfl
  · rw [reduce_eq_map simulationTime (scenario_coex_be_3sta (List.range' 9000 m))
      (List.nodup_range' 9000 m), report_coex_be_3sta]
    have h := staLines_of_map "802.11be" m 9000 (by omega)
      (fun p => stationMetric simulationTime p flows Metric.zero) []
    simpa [scenario_coex_be_3sta, Scenario.ports] using h
  · rw [reduce_eq_map simulationTime _ (by decide)]
    rfl
  · rw [reduce_eq_map simulationTime _ (by decide)]
    rfl
  · rw [reduce_eq_map simulationTime _ (by decide)]
    rfl
  · rw [reduce_eq_map simulationTime _ (by decide)]
    rfl
  · rw [reduce_eq_map simulationTime _ (by decide)]
    rfl

end ReportClaims

/-- C19 at the station counts of the programs (ten ring stations, three
stations in `scenario_coex_be_3sta`) with one flow to ring port 9002: the
block of `scenario_coex_a_ax_decsta` is the legacy line and ten numbered
lines. -/
theorem results_block_lines_witness :
    (9001 + 10 ≤ 65535 ∧ 9000 + 3 ≤ 65535) ∧
    ∃ legacy ring,
      (scenario_coex_a_ax_decsta (List.range' 9001 10)).reduce (260 : ℚ) [flowRing]
        = legacy :: ring ∧
      report_coex_a_ax_decsta 10 (legacy, ring)
        = resultLine "802.11a network" (stationMetric 260 9000 [flowRing] Metric.zero)
          :: (List.range 10).map (fun (i : Nat) =>
            resultLine ("802.11ax STA #" ++ toString (i + 1))
              (stationMetric 260 (9001 + i) [flowRing] Metric.zero)) :=
  ⟨⟨by decide, by decide⟩,
    (results_block_lines (260 : ℚ) [flowRing] 10 3 (by decide) (by decide)).1⟩

/-! ## One-packet records, schedule, reported values -/

section OnePacket

variable {α : Type} [LinearOrderedField α]

theorem updateMetric_nonzero (simulationTime : α) (hT : 0 < simulationTime)
    (flow : FlowRecord α) (m : Metric α) (hrx : 1 ≤ flow.rxPackets)
    (hb : 0 < flow.rxBytes) (hd : flow.delaySum ≠ 0) :
    (updateMetric simulationTime flow m).throughput ≠ 0 ∧
      (updateMetric simulationTime flow m).avgDelay ≠ 0 := by
  have h0 : 0 < flow.rxPackets := hrx
  have hbα : (0 : α) < (flow.rxBytes : α) := by exact_mod_cast hb
  have hrα : ((flow.rxPackets : α)) ≠ 0 := by exact_mod_cast (by omega : flow.rxPackets ≠ 0)
  have hthr : ((flow.rxBytes : α) * 8) / (simulationTime * 1000000) ≠ 0 :=
    ne_of_gt (by positivity)
  have hdel : flow.delaySum / (flow.rxPackets : α) ≠ 0 := div_ne_zero hd hrα
  unfold updateMetric
  by_cases h1 : 1 < flow.rxPackets
  · simp only [h0, h1, if_true]
    exact ⟨hthr, hdel⟩
  · simp only [h0, h1, if_true, if_false]
    exact ⟨hthr, hdel⟩

theorem foldl_updateMetric_nonzero (simulationTime : α) (hT : 0 < simulationTime) :
    ∀ (l : List (FlowRecord α)) (m : Metric α),
      (∀ f ∈ l, 1 ≤ f.rxPackets → 0 < f.rxBytes ∧ f.delaySum ≠ 0) →
      ((m.throughput ≠ 0 ∧ m.avgDelay ≠ 0) ∨ ∃ f ∈ l, 1 ≤ f.rxPackets) →
      (l.foldl (fun acc f => updateMetric simulationTime f acc) m).throughput ≠ 0 ∧
        (l.foldl (fun acc f => updateMetric simulationTime f acc) m).avgDelay ≠ 0
  | [], m, _, h => by
    rcases h with h | ⟨f, hf, _⟩
    · exact h
    · simp at hf
  | g :: l, m, hgood, h => by
    rw [List.foldl_cons]
    apply foldl_updateMetric_nonzero simulationTime hT l _
      (fun f hf => hgood f (List.mem_cons_of_mem _ hf))
    by_cases hg : 1 ≤ g.rxPackets
    · left
      obtain ⟨hb, hd⟩ := hgood g (by simp) hg
      exact updateMetric_nonzero simulationTime hT g m hg hb hd
    · rw [updateMetric_of_none simulationTime g m (by omega)]
      rcases h with h | ⟨f, hf, hf1⟩
      · left; exact h
      · right
        rcases List.mem_cons.1 hf with rfl | hfl
        · exact absurd hf1 hg
        · exact ⟨f, hfl, hf1⟩

/-- C21, as amended: for a positive `simulationTime`, when every record for
the port of station `k` that received a packet carries received bytes and a
nonzero delay sum, a record with `rxPackets = 1` for that port leaves the
station with nonzero throughput and nonzero `avgDelay`. -/
theorem one_packet_nonzero (sc : Scenario) (hnd : sc.ports.Nodup)
    (simulationTime : α) (hT : 0 < simulationTime)
    (flows : List (FlowRecord α)) (r : FlowRecord α) (k : Nat)
    (hr : r ∈ flows) (hr1 : r.rxPackets = 1)
    (hk : sc.ports[k]? = some r.destinationPort)
    (hgood : ∀ f ∈ flows, f.destinationPort = r.destinationPort → 1 ≤ f.rxPackets →
      0 < f.rxBytes ∧ f.delaySum ≠ 0) :
    ∃ m, (sc.reduce simulationTime flows)[k]? = some m ∧
      m.throughput ≠ 0 ∧ m.avgDelay ≠ 0 := by
  refine ⟨_, reduce_station simulationTime sc hnd flows k _ hk, ?_⟩
  apply foldl_updateMetric_nonzero simulationTime hT
  · intro f hf
    rw [List.mem_filter] at hf
    exact hgood f hf.1 (by simpa using hf.2)
  · right
    exact ⟨r, by rw [List.mem_filter]; exact ⟨hr, by simp⟩, by omega⟩

theorem updateMetric_throughput (simulationTime : α) (flow : FlowRecord α) (m : Metric α)
    (h0 : 0 < flow.rxPackets) :
    (updateMetric simulationTime flow m).throughput
      = (flow.rxBytes : α) * 8 / (simulationTime * 1000000) := by
  unfold updateMetric
  by_cases h1 : 1 < flow.rxPackets <;> simp [h0, h1]

theorem blockRuns_pos (sc : Scenario) (port : Nat) (hp : port ∈ sc.ports) :
    0 < sc.blockRuns port := by
  cases sc with
  | chain ports =>
    simp only [Scenario.ports] at hp
    simp [Scenario.blockRuns, hp]
  | legacyRing portLegacy ringPorts =>
    simp only [Scenario.ports, List.mem_cons] at hp
    simp only [Scenario.blockRuns]
    by_cases h : port = portLegacy
    · simp [h]
    · simp only [h, if_false]
      exact List.count_pos_iff.mpr (hp.resolve_left h)
  | ring ports =>
    simp only [Scenario.ports] at hp
    simp only [Scenario.blockRuns]
    exact List.count_pos_iff.mpr hp

theorem mem_reduceDivs_of_mem (simulationTime : α) (sc : Scenario)
    (flows : List (FlowRecord α)) (f : FlowRecord α) (hf : f ∈ flows)
    (hp : f.destinationPort ∈ sc.ports) (e : DivEval α)
    (he : e ∈ updateMetricDivs simulationTime f) :
    e ∈ sc.reduceDivs simulationTime flows := by
  rw [Scenario.reduceDivs, List.mem_flatMap]
  refine ⟨f, hf, ?_⟩
  rw [Scenario.stepDivs, List.mem_flatten]
  refine ⟨updateMetricDivs simulationTime f, ?_, he⟩
  rw [List.mem_replicate]
  exact ⟨(blockRuns_pos sc _ hp).ne', rfl⟩

theorem throughput_div_mem (simulationTime : α) (f : FlowRecord α) (h0 : 0 < f.rxPackets) :
    (⟨Quot3.throughput, (f.rxBytes : α) * 8, simulationTime * 1000000⟩ : DivEval α)
      ∈ updateMetricDivs simulationTime f := by
  unfold updateMetricDivs
  by_cases h1 : 1 < f.rxPackets <;> simp [h0, h1]

/-- C22: in every scenario and for every `simulationTime` each station's
client stops `simulationTime` seconds after it starts, and that duration times
`10^6` is the divisor of the throughput formula: of every throughput quotient
in the reduction's division trace, of the throughput the guarded block assigns
for any record with received packets (whose quotient is in the trace whenever
the record's port is a station's), and of the throughput the reduction reports
for a station with one such record. -/
theorem traffic_window_is_simulation_time (sc : Scenario) (simulationTime : α) :
    (sc.clientApps simulationTime).length = sc.ports.length ∧
    (∀ a ∈ sc.clientApps simulationTime, a.2.stop - a.2.start = simulationTime) ∧
    (∀ a ∈ sc.clientApps simulationTime, ∀ (flows : List (FlowRecord α)),
      ∀ e ∈ sc.reduceDivs simulationTime flows, e.which = Quot3.throughput →
        e.divisor = (a.2.stop - a.2.start) * 10 ^ 6) ∧
    (∀ a ∈ sc.clientApps simulationTime, ∀ (flow : FlowRecord α) (m : Metric α),
      0 < flow.rxPackets →
        (updateMetric simulationTime flow m).throughput
          = (flow.rxBytes : α) * 8 / ((a.2.stop - a.2.start) * 10 ^ 6)) ∧
    (∀ a ∈ sc.clientApps simulationTime, ∀ (flows : List (FlowRecord α)),
      ∀ f ∈ flows, f.destinationPort ∈ sc.ports → 0 < f.rxPackets →
        ∃ e ∈ sc.reduceDivs simulationTime flows, e.which = Quot3.throughput ∧
          e.dividend = (f.rxBytes : α) * 8 ∧
          e.divisor = (a.2.stop - a.2.start) * 10 ^ 6 ∧
          ∀ m, (updateMetric simulationTime f m).throughput = e.dividend / e.divisor) ∧
    (sc.ports.Nodup → ∀ a ∈ sc.clientApps simulationTime, ∀ (k : Nat),
      sc.ports[k]? = some a.1 → ∀ (flows : List (FlowRecord α)) (r : FlowRecord α),
        flows.filter (fun f => f.destinationPort = a.1) = [r] → 0 < r.rxPackets →
          ∃ m, (sc.reduce simulationTime flows)[k]? = some m ∧
            m.throughput = (r.rxBytes : α) * 8 / ((a.2.stop - a.2.start) * 10 ^ 6)) := by
  have hwin : ∀ a ∈ sc.clientApps simulationTime, a.2.stop - a.2.start = simulationTime := by
    intro a ha
    rw [Scenario.clientApps, List.mem_map] at ha
    obtain ⟨p, _, rfl⟩ := ha
    simp [clientTimes]
  have hten : simulationTime * 1000000 = simulationTime * 10 ^ 6 := by norm_num
  refine ⟨by simp [Scenario.clientApps], hwin, ?_, ?_, ?_, ?_⟩
  · intro a ha flows e he hw
    rw [hwin a ha]
    obtain ⟨f, _, hef⟩ := mem_reduceDivs simulationTime sc flows e he
    unfold updateMetricDivs at hef
    by_cases h0 : 0 < f.rxPackets
    · by_cases h1 : 1 < f.rxPackets
      · simp only [h0, h1, if_true, List.mem_cons, List.mem_singleton, List.not_mem_nil,
          or_false] at hef
        rcases hef with rfl | rfl | rfl
        · norm_num
        · simp at hw
        · simp at hw
      · simp only [h0, h1, if_true, if_false, List.mem_cons, List.mem_singleton,
          List.not_mem_nil, or_false] at hef
        rcases hef with rfl | rfl
        · norm_num
        · simp at hw
    · simp [h0] at hef
  · intro a ha flow m h0
    rw [hwin a ha, updateMetric_throughput simulationTime flow m h0, hten]
  · intro a ha flows f hf hp h0
    refine ⟨⟨Quot3.throughput, (f.rxBytes : α) * 8, simulationTime * 1000000⟩,
      mem_reduceDivs_of_mem simulationTime sc flows f hf hp _
        (throughput_div_mem simulationTime f h0), rfl, rfl, ?_, ?_⟩
    · rw [hwin a ha, hten]
    · intro m
      exact updateMetric_throughput simulationTime f m h0
  · intro hnd a ha k hk flows r hr h0
    refine ⟨_, (reduce_station simulationTime sc hnd flows k a.1 hk), ?_⟩
    rw [hr, hwin a ha]
    simp only [List.foldl_cons, List.foldl_nil]
    rw [updateMetric_throughput simulationTime r _ h0, hten]

/-- C23, as amended: in every scenario each station's client starts 1 second
after the run starts and stops at `simulationTime + 1`; each server runs from
0 to `simulationTime + 1`; the run is stopped at `simulationTime + 1.5`, half a
second later and so strictly after every application's stop time. -/
theorem application_schedule (sc : Scenario) (simulationTime : α) :
    (∀ a ∈ sc.clientApps simulationTime,
      a.2.start = 1 ∧ a.2.stop = simulationTime + 1 ∧
      a.2.stop < simulatorStop simulationTime ∧
      simulatorStop simulationTime - a.2.stop = 1 / 2) ∧
    (∀ a ∈ sc.serverApps simulationTime,
      a.2.start = 0 ∧ a.2.stop = simulationTime + 1 ∧
      a.2.stop < simulatorStop simulationTime) ∧
    simulatorStop simulationTime = simulationTime + 1.5 := by
  refine ⟨?_, ?_, ?_⟩
  · intro a ha
    rw [Scenario.clientApps, List.mem_map] at ha
    obtain ⟨p, _, rfl⟩ := ha
    refine ⟨rfl, rfl, ?_, ?_⟩
    · simp only [clientTimes, simulatorStop]; linarith
    · simp only [clientTimes, simulatorStop]; ring
  · intro a ha
    rw [Scenario.serverApps, List.mem_map] at ha
    obtain ⟨p, _, rfl⟩ := ha
    refine ⟨rfl, rfl, ?_⟩
    simp only [serverTimes, simulatorStop]; linarith
  · simp only [simulatorStop]; norm_num

/-- C25: a results line carries the throughput unchanged and the delay and
jitter averages multiplied by 1000, so an all-zero metric is reported as
0, 0, 0; in the block of `scenario_coex_a_be_decsta` the first line is that of
the legacy results and line `i + 1` that of ring station `i`, in the block of
`scenario_coex_be_3sta` line `i` is that of station `i`. -/
theorem results_line_values (label : String) (m legacy : Metric α) (ring : List (Metric α))
    (n i : Nat) (hlen : ring.length = n) (hi : i < n) :
    (resultLine label m).throughput = m.throughput ∧
    (resultLine label m).delayMs = m.avgDelay * 1000 ∧
    (resultLine label m).jitterMs = m.avgJitter * 1000 ∧
    resultLine label (Metric.zero : Metric α) = ⟨label, 0, 0, 0⟩ ∧
    (report_coex_a_be_decsta n (legacy, ring))[0]?
      = some ⟨"802.11a network", legacy.throughput, legacy.avgDelay * 1000,
          legacy.avgJitter * 1000⟩ ∧
    (∃ line mi, (report_coex_a_be_decsta n (legacy, ring))[i + 1]? = some line ∧
      ring[i]? = some mi ∧ line.throughput = mi.throughput ∧
      line.delayMs = mi.avgDelay * 1000 ∧ line.jitterMs = mi.avgJitter * 1000) ∧
    (∃ line mi, (report_coex_be_3sta n ring)[i]? = some line ∧
      ring[i]? = some mi ∧ line.throughput = mi.throughput ∧
      line.delayMs = mi.avgDelay * 1000 ∧ line.jitterMs = mi.avgJitter * 1000) := by
  have hir : i < ring.length := by omega
  have hget : ring[i]? = some ring[i] := List.getElem?_eq_getElem hir
  have hgetD : ring.getD i Metric.zero = ring[i] := by
    simp [List.getD, hget]
  refine ⟨rfl, rfl, rfl, ?_, ?_, ?_, ?_⟩
  · simp [resultLine, Metric.zero]
  · rw [report_coex_a_be_decsta, decstaReport, staLines_eq]
    simp [resultLine]
  · refine ⟨resultLine ("802.11be" ++ " STA #" ++ toString ((i + 1) % 2 ^ 32)) ring[i],
      ring[i], ?_, hget, rfl, rfl, rfl⟩
    rw [report_coex_a_be_decsta, decstaReport, staLines_eq]
    simp only [List.singleton_append, List.getElem?_cons_succ]
    rw [List.getElem?_map, List.getElem?_range hi, Option.map_some', hgetD]
  · refine ⟨resultLine ("802.11be" ++ " STA #" ++ toString ((i + 1) % 2 ^ 32)) ring[i],
      ring[i], ?_, hget, rfl, rfl, rfl⟩
    rw [report_coex_be_3sta, staLines_eq, List.nil_append, List.getElem?_map,
      List.getElem?_range hi, Option.map_some', hgetD]

end OnePacket

/-- C21 as stated fails: in `scenario_single_be` a one-packet record to port
9000 with no received bytes and a zero delay sum leaves the station with
throughput 0 and `avgDelay` 0; and a one-packet record with bytes and delay is
overwritten by a later record for the same port that has none. -/
theorem one_packet_nonzero_counterexample :
    flowEmptyPacket.rxPackets = 1 ∧
      scenario_single_be.ports[0]? = some flowEmptyPacket.destinationPort ∧
      (scenario_single_be.reduce (260 : ℚ) [flowEmptyPacket])[0]? = some ⟨0, 0, 0⟩ ∧
      flowOne.rxPackets = 1 ∧
      (scenario_single_be.reduce (260 : ℚ) [flowOne, flowEmptyMany])[0]?
        = some ⟨0, 0, 3 / 4⟩ := by
  refine ⟨rfl, rfl, ?_, rfl, ?_⟩
  · simp [Scenario.reduce, Scenario.reduceFrom, Scenario.step, scenario_single_be,
      Scenario.ports, chainStep, updateMetric, flowEmptyPacket, Metric.zero]
  · simp [Scenario.reduce, Scenario.reduceFrom, Scenario.step, scenario_single_be,
      Scenario.ports, chainStep, updateMetric, flowOne, flowEmptyMany, Metric.zero, u32Sub]

/-- C21 amended, at `scenario_coex_ax_2sta` with the one-packet flow to port
9000 among a zero-packet flow to the same port and a flow to no station. -/
theorem one_packet_nonzero_witness :
    (0 : ℚ) < 260 ∧
    ∃ m, (scenario_coex_ax_2sta.reduce (260 : ℚ) [flowNone, flowOne, flowStray])[0]? = some m ∧
      m.throughput ≠ 0 ∧ m.avgDelay ≠ 0 :=
  ⟨by norm_num,
    one_packet_nonzero scenario_coex_ax_2sta (by decide) 260 (by norm_num)
      [flowNone, flowOne, flowStray] flowOne 0 (by simp) rfl rfl
      (by
        intro f hf hp hrx
        simp only [List.mem_cons, List.mem_singleton, List.not_mem_nil, or_false] at hf
        rcases hf with rfl | rfl | rfl
        · exact absurd hrx (by decide)
        · exact ⟨by decide, by norm_num [flowOne]⟩
        · exact absurd hp (by decide))⟩

/-- C22 at `scenario_single_be` with `simulationTime = 260` and the record of
concrete scenario C: the client runs from 1 to 261, and the throughput the
reduction reports for the station is the record's bits over the length of that
window times `10^6`. -/
theorem traffic_window_is_simulation_time_witness :
    ((9000, clientTimes (260 : ℚ)) ∈ scenario_single_be.clientApps (260 : ℚ)) ∧
      scenario_single_be.ports.Nodup ∧ scenario_single_be.ports[0]? = some 9000 ∧
      [flowScenarioC].filter (fun f => f.destinationPort = 9000) = [flowScenarioC] ∧
      0 < flowScenarioC.rxPackets ∧
      (clientTimes (260 : ℚ)).stop - (clientTimes (260 : ℚ)).start = 260 ∧
      ∃ m, (scenario_single_be.reduce (260 : ℚ) [flowScenarioC])[0]? = some m ∧
        m.throughput = (flowScenarioC.rxBytes : ℚ) * 8
          / (((clientTimes (260 : ℚ)).stop - (clientTimes (260 : ℚ)).start) * 10 ^ 6) ∧
        m.throughput = 147200000 * 8 / ((261 - 1) * 10 ^ 6) :=
  have hmem : (9000, clientTimes (260 : ℚ)) ∈ scenario_single_be.clientApps (260 : ℚ) := by
    simp [Scenario.clientApps, scenario_single_be, Scenario.ports]
  have hnd : scenario_single_be.ports.Nodup := by decide
  have hk : scenario_single_be.ports[0]? = some 9000 := rfl
  have hfil : [flowScenarioC].filter (fun f => f.destinationPort = 9000) = [flowScenarioC] :=
    rfl
  have hrx : 0 < flowScenarioC.rxPackets := by decide
  ⟨hmem, hnd, hk, hfil, hrx,
    (traffic_window_is_simulation_time scenario_single_be (260 : ℚ)).2.1 _ hmem,
    by
      obtain ⟨m, hm, ht⟩ :=
        (traffic_window_is_simulation_time scenario_single_be (260 : ℚ)).2.2.2.2.2
          hnd _ hmem 0 hk [flowScenarioC] flowScenarioC hfil hrx
      exact ⟨m, hm, ht, by rw [ht]; norm_num [clientTimes, flowScenarioC]⟩⟩

/-- C23 as stated fails: for `simulationTime = 260` the client of
`scenario_coex_be_3sta` on port 9000 stops at 261, not one second before
`simulationTime + 1`, and its sending window is 260 seconds, not 259. -/
theorem application_schedule_counterexample :
    ((9000, clientTimes (260 : ℚ))
        ∈ (scenario_coex_be_3sta [9000, 9001, 9002]).clientApps (260 : ℚ)) ∧
      (clientTimes (260 : ℚ)).stop = 261 ∧
      (clientTimes (260 : ℚ)).stop ≠ (260 + 1) - 1 ∧
      (clientTimes (260 : ℚ)).stop - (clientTimes (260 : ℚ)).start = 260 := by
  refine ⟨?_, ?_, ?_, ?_⟩
  · simp [Scenario.clientApps, scenario_coex_be_3sta, Scenario.ports]
  · simp [clientTimes]; norm_num
  · simp [clientTimes]
  · simp [clientTimes]

/-- C23 amended, at `scenario_coex_a_be_decsta` with ten ring stations and
`simulationTime = 260`, for the legacy station's client. -/
theorem application_schedule_witness :
    ((9000, clientTimes (260 : ℚ)) ∈ (scenario_coex_a_be_decsta 10).clientApps (260 : ℚ)) ∧
      (clientTimes (260 : ℚ)).start = 1 ∧ (clientTimes (260 : ℚ)).stop = 260 + 1 ∧
      (clientTimes (260 : ℚ)).stop < simulatorStop 260 ∧
      simulatorStop (260 : ℚ) - (clientTimes (260 : ℚ)).stop = 1 / 2 :=
  have hmem : (9000, clientTimes (260 : ℚ))
      ∈ (scenario_coex_a_be_decsta 10).clientApps (260 : ℚ) := by
    simp [Scenario.clientApps, scenario_coex_a_be_decsta, Scenario.ports]
  ⟨hmem, (application_schedule (scenario_coex_a_be_decsta 10) (260 : ℚ)).1 _ hmem⟩

/-- C25 at a block of `scenario_coex_a_be_decsta` with two ring stations. -/
theorem results_line_values_witness :
    (report_coex_a_be_decsta 2 ((⟨1, 2, 3⟩ : Metric ℚ), [⟨4, 5, 6⟩, Metric.zero]))[0]?
      = some ⟨"802.11a network", 1, 2 * 1000, 3 * 1000⟩ :=
  (results_line_values "802.11be" (Metric.zero : Metric ℚ) ⟨1, 2, 3⟩
    [⟨4, 5, 6⟩, Metric.zero] 2 1 rfl (by decide)).2.2.2.2.1

/-! ## Order of the records, loop against chain -/

theorem filter_port_eq_of_perm {β : Type} (p : Nat) (flows flows' : List (FlowRecord β))
    (hperm : flows'.Perm flows)
    (hdist : (flows.map (fun f => f.destinationPort)).Nodup) :
    flows'.filter (fun f => f.destinationPort = p)
      = flows.filter (fun f => f.destinationPort = p) := by
  have hp : (flows'.filter (fun f => decide (f.destinationPort = p))).Perm
      (flows.filter (fun f => decide (f.destinationPort = p))) := hperm.filter _
  have hsub : ((flows.filter (fun f => decide (f.destinationPort = p))).map
      (fun f => f.destinationPort)).Nodup :=
    ((List.filter_sublist flows).map _).nodup hdist
  generalize hL : flows.filter (fun f => decide (f.destinationPort = p)) = L at hp hsub
  have hmem : ∀ f ∈ L, f.destinationPort = p := by
    intro f hf
    rw [← hL, List.mem_filter] at hf
    simpa using hf.2
  match L, hp, hsub, hmem with
  | [], hp, _, _ => exact hp.eq_nil
  | [a], hp, _, _ => exact List.perm_singleton.1 hp
  | a :: b :: L, _, hsub, hmem =>
    exfalso
    have ha := hmem a (by simp)
    have hb := hmem b (by simp)
    simp only [List.map_cons, List.nodup_cons, List.mem_cons] at hsub
    exact hsub.1 (Or.inl (ha.trans hb.symm))

section OrderAndChain

variable {α : Type} [LinearOrderedField α]

/-- C26: for a scenario with pairwise distinct station ports, a list of flow
records with pairwise distinct destination ports and any permutation of it,
the reduction yields the same metric for every station. -/
theorem reduction_order_independent (sc : Scenario) (hnd : sc.ports.Nodup)
    (simulationTime : α) (flows flows' : List (FlowRecord α))
    (hperm : flows'.Perm flows)
    (hdist : (flows.map (fun f => f.destinationPort)).Nodup) :
    sc.reduce simulationTime flows' = sc.reduce simulationTime flows := by
  rw [reduce_eq_map simulationTime sc hnd flows', reduce_eq_map simulationTime sc hnd flows]
  apply List.map_congr_left
  intro p _
  rw [stationMetric_eq_filter, stationMetric_eq_filter,
    filter_port_eq_of_perm p flows flows' hperm hdist]

theorem step_length (simulationTime : α) (sc : Scenario) (hnd : sc.ports.Nodup)
    (flow : FlowRecord α) (ms : List (Metric α)) (hlen : sc.ports.length = ms.length) :
    (sc.step simulationTime flow ms).length = ms.length := by
  rw [step_eq_zipWith simulationTime flow sc ms hlen hnd]
  simp [hlen]

theorem decstaStepNoContinue_eq (simulationTime : α) (portLegacy : Nat)
    (ringPorts : List Nat) (hnot : portLegacy ∉ ringPorts) (flow : FlowRecord α)
    (st : Metric α × List (Metric α)) :
    decstaStepNoContinue simulationTime portLegacy ringPorts flow st
      = decstaStep simulationTime portLegacy ringPorts flow st := by
  unfold decstaStepNoContinue decstaStep
  by_cases hp : flow.destinationPort = portLegacy
  · have hn : flow.destinationPort ∉ ringPorts := hp ▸ hnot
    simp [hp, ringScan_of_not_mem simulationTime flow ringPorts st.2 hn]
  · simp [hp]

theorem foldl_decstaStepNoContinue (simulationTime : α) (portLegacy : Nat)
    (ringPorts : List Nat) (hnot : portLegacy ∉ ringPorts) :
    ∀ (flows : List (FlowRecord α)) (m : Metric α) (ms : List (Metric α)),
      (fun st : Metric α × List (Metric α) => st.1 :: st.2)
          (flows.foldl
            (fun st flow => decstaStepNoContinue simulationTime portLegacy ringPorts flow st)
            (m, ms))
        = (Scenario.legacyRing portLegacy ringPorts).reduceFrom simulationTime flows (m :: ms)
  | [], _, _ => rfl
  | f :: flows, m, ms => by
    simp only [List.foldl_cons, Scenario.reduceFrom]
    rw [decstaStepNoContinue_eq simulationTime portLegacy ringPorts hnot]
    exact foldl_decstaStepNoContinue simulationTime portLegacy ringPorts hnot flows _ _

/-- C27: with pairwise distinct ports (legacy port first, then the ring
ports) one iteration of the loop-based reduction changes at most one station's
metric, and only that of a station whose port is the record's destination
port; for every record list the loop with `continue` and ring scan, the ring
scan alone, and the loop with the `continue` removed compute the same metrics
as the `if / else if` chain over the same ports. -/
theorem loop_reduction_equals_chain (portLegacy : Nat) (ringPorts : List Nat)
    (hnd : (portLegacy :: ringPorts).Nodup) (simulationTime : α)
    (flows : List (FlowRecord α)) :
    (Scenario.legacyRing portLegacy ringPorts).reduce simulationTime flows
      = (Scenario.chain (portLegacy :: ringPorts)).reduce simulationTime flows ∧
    (Scenario.ring ringPorts).reduce simulationTime flows
      = (Scenario.chain ringPorts).reduce simulationTime flows ∧
    reduceNoContinue simulationTime portLegacy ringPorts flows
      = (Scenario.legacyRing portLegacy ringPorts).reduce simulationTime flows ∧
    (∀ (flow : FlowRecord α) (ms : List (Metric α)) (k p : Nat),
      (Scenario.legacyRing portLegacy ringPorts).ports[k]? = some p →
      ((Scenario.legacyRing portLegacy ringPorts).step simulationTime flow ms)[k]? ≠ ms[k]? →
      flow.destinationPort = p) ∧
    (∀ (flow : FlowRecord α) (ms : List (Metric α)) (j k : Nat),
      ms.length = 1 + ringPorts.length →
      ((Scenario.legacyRing portLegacy ringPorts).step simulationTime flow ms)[j]? ≠ ms[j]? →
      ((Scenario.legacyRing portLegacy ringPorts).step simulationTime flow ms)[k]? ≠ ms[k]? →
      j = k) := by
  have hring : ringPorts.Nodup := (List.nodup_cons.1 hnd).2
  have hnot : portLegacy ∉ ringPorts := (List.nodup_cons.1 hnd).1
  have hchange : ∀ (flow : FlowRecord α) (ms : List (Metric α)) (k p : Nat),
      (Scenario.legacyRing portLegacy ringPorts).ports[k]? = some p →
      ((Scenario.legacyRing portLegacy ringPorts).step simulationTime flow ms)[k]? ≠ ms[k]? →
      flow.destinationPort = p := by
    intro flow ms k p hk hne
    by_contra hp
    exact hne (step_getElem?_of_ne simulationTime _ flow p hp ms k hk)
  refine ⟨?_, ?_, ?_, hchange, ?_⟩
  · rw [reduce_eq_map simulationTime (Scenario.legacyRing portLegacy ringPorts) hnd,
      reduce_eq_map simulationTime (Scenario.chain (portLegacy :: ringPorts)) hnd]
    rfl
  · rw [reduce_eq_map simulationTime (Scenario.ring ringPorts) hring,
      reduce_eq_map simulationTime (Scenario.chain ringPorts) hring]
    rfl
  · exact foldl_decstaStepNoContinue simulationTime portLegacy ringPorts hnot flows _ _
  · intro flow ms j k hlen hj hk
    have hports : (Scenario.legacyRing portLegacy ringPorts).ports.length = ms.length := by
      simp [Scenario.ports, hlen]; omega
    have hsl := step_length simulationTime (Scenario.legacyRing portLegacy ringPorts) hnd
      flow ms hports
    have hlt : ∀ i : Nat,
        ((Scenario.legacyRing portLegacy ringPorts).step simulationTime flow ms)[i]? ≠ ms[i]? →
        i < (Scenario.legacyRing portLegacy ringPorts).ports.length := by
      intro i hi
      by_contra hge
      apply hi
      rw [List.getElem?_eq_none (by omega), List.getElem?_eq_none (by omega)]
    have hjl := hlt j hj
    have hkl := hlt k hk
    have hpj := hchange flow ms j _ (List.getElem?_eq_getElem hjl) hj
    have hpk := hchange flow ms k _ (List.getElem?_eq_getElem hkl) hk
    exact (List.Nodup.getElem_inj_iff hnd).1 (hpj.symm.trans hpk)

end OrderAndChain

/-- C26 at `scenario_coex_ac_ax_quadsta` with three flows to different ports
in two orders. -/
theorem reduction_order_independent_witness :
    scenario_coex_ac_ax_quadsta.reduce (260 : ℚ) [flowStray, flowRing, flowMany]
      = scenario_coex_ac_ax_quadsta.reduce (260 : ℚ) [flowMany, flowRing, flowStray] :=
  reduction_order_independent scenario_coex_ac_ax_quadsta (by decide) 260
    [flowMany, flowRing, flowStray] [flowStray, flowRing, flowMany]
    (by
      have h1 : [flowRing, flowStray].Perm [flowStray, flowRing] := List.Perm.swap _ _ []
      have h2 : [flowMany, flowRing, flowStray].Perm [flowMany, flowStray, flowRing] :=
        List.Perm.cons _ h1
      have h3 : [flowMany, flowStray, flowRing].Perm [flowStray, flowMany, flowRing] :=
        List.Perm.swap _ _ _
      have h4 : [flowMany, flowRing].Perm [flowRing, flowMany] := List.Perm.swap _ _ []
      exact ((h2.trans h3).trans (List.Perm.cons _ h4)).symm)
    (by decide)

/-- C27 at the ports of `scenario_coex_a_ax_decsta` with three ring stations
and two flows to port 9000 around a flow to ring port 9002. -/
theorem loop_reduction_equals_chain_witness :
    (Scenario.legacyRing 9000 [9001, 9002, 9003]).reduce (260 : ℚ)
        [flowMany, flowRing, flowOne]
      = (Scenario.chain [9000, 9001, 9002, 9003]).reduce (260 : ℚ)
        [flowMany, flowRing, flowOne] ∧
    reduceNoContinue (260 : ℚ) 9000 [9001, 9002, 9003] [flowMany, flowRing, flowOne]
      = (Scenario.legacyRing 9000 [9001, 9002, 9003]).reduce (260 : ℚ)
        [flowMany, flowRing, flowOne] :=
  have h := loop_reduction_equals_chain 9000 [9001, 9002, 9003] (by decide) (260 : ℚ)
    [flowMany, flowRing, flowOne]
  ⟨h.1, h.2.2.1⟩

/-! ## Distinct ring points, anchor against ring, port loop, ring count -/

theorem ringTheta_sub (twoPi theta0 : ℝ) (n i j : Nat) :
    ringTheta twoPi theta0 n i - ringTheta twoPi theta0 n j
      = twoPi * (((i : ℝ) - (j : ℝ)) / (n : ℝ)) := by
  simp only [ringTheta]
  ring

theorem ring_angles_not_congruent (twoPi : ℝ) (h0 : 0 < twoPi) (h1 : twoPi ≤ 2 * Real.pi)
    (theta0 : ℝ) (n i j : Nat) (hi : i < n) (hj : j < n) (hij : i ≠ j) :
    Real.cos (ringTheta twoPi theta0 n i - ringTheta twoPi theta0 n j) ≠ 1 := by
  have hn : (0 : ℝ) < (n : ℝ) := by exact_mod_cast (by omega : 0 < n)
  have hiR : (i : ℝ) < (n : ℝ) := by exact_mod_cast hi
  have hjR : (j : ℝ) < (n : ℝ) := by exact_mod_cast hj
  have hi0 : (0 : ℝ) ≤ (i : ℝ) := Nat.cast_nonneg i
  have hj0 : (0 : ℝ) ≤ (j : ℝ) := Nat.cast_nonneg j
  have hne : ((i : ℝ) - (j : ℝ)) / (n : ℝ) ≠ 0 := by
    apply div_ne_zero _ (ne_of_gt hn)
    intro h
    exact hij (by exact_mod_cast sub_eq_zero.1 h)
  have hlt : ((i : ℝ) - (j : ℝ)) / (n : ℝ) < 1 := by
    rw [div_lt_one hn]; linarith
  have hgt : -1 < ((i : ℝ) - (j : ℝ)) / (n : ℝ) := by
    rw [lt_div_iff₀ hn]; linarith
  rw [ringTheta_sub]
  intro hcos
  have hup : twoPi * (((i : ℝ) - (j : ℝ)) / (n : ℝ)) < 2 * Real.pi := by nlinarith
  have hlo : -(2 * Real.pi) < twoPi * (((i : ℝ) - (j : ℝ)) / (n : ℝ)) := by nlinarith
  have hz := (Real.cos_eq_one_iff_of_lt_of_lt hlo hup).1 hcos
  rcases mul_eq_zero.1 hz with h | h
  · exact (ne_of_gt h0) h
  · exact hne h

/-- C28: over the reals, for a count `n > 0`, a radius `r > 0`, every offset
and two different indices below `n`, the ring placement loop computes
different positions for the two stations; `twoPi` may be any positive value
up to `2 * pi`, which covers `2 * pi` and the program's literal. -/
theorem ring_stations_distinct (twoPi : ℝ) (h0 : 0 < twoPi) (h1 : twoPi ≤ 2 * Real.pi)
    (c : Vector ℝ) (r : ℝ) (hr : 0 < r) (theta0 : ℝ) (n : Nat) (_hn : 0 < n)
    (i j : Nat) (hi : i < n) (hj : j < n) (hij : i ≠ j) :
    ∃ pi pj, (ringPlacement Real.cos Real.sin twoPi c r theta0 n [])[i]? = some pi ∧
      (ringPlacement Real.cos Real.sin twoPi c r theta0 n [])[j]? = some pj ∧
      pi ≠ pj := by
  refine ⟨_, _, ringPlacement_station Real.cos Real.sin twoPi c r theta0 n i hi,
    ringPlacement_station Real.cos Real.sin twoPi c r theta0 n j hj, ?_⟩
  intro heq
  have hx : c.x + r * Real.cos (ringTheta twoPi theta0 n i)
      = c.x + r * Real.cos (ringTheta twoPi theta0 n j) := congrArg Vector.x heq
  have hy : c.y + r * Real.sin (ringTheta twoPi theta0 n i)
      = c.y + r * Real.sin (ringTheta twoPi theta0 n j) := congrArg Vector.y heq
  have hc : Real.cos (ringTheta twoPi theta0 n i) = Real.cos (ringTheta twoPi theta0 n j) :=
    mul_left_cancel₀ (ne_of_gt hr) (add_left_cancel hx)
  have hs : Real.sin (ringTheta twoPi theta0 n i) = Real.sin (ringTheta twoPi theta0 n j) :=
    mul_left_cancel₀ (ne_of_gt hr) (add_left_cancel hy)
  apply ring_angles_not_congruent twoPi h0 h1 theta0 n i j hi hj hij
  rw [Real.cos_sub, hc, hs]
  have := Real.cos_sq_add_sin_sq (ringTheta twoPi theta0 n j)
  nlinarith

theorem const_twoPi_bounds : (0 : ℝ) < Const.twoPi ∧ (Const.twoPi : ℝ) ≤ 2 * Real.pi := by
  have h := Real.pi_gt_d20
  rw [Const.twoPi]
  constructor
  · norm_num
  · norm_num at h ⊢
    linarith

/-- C28 at the constants of `scenario_coex_a_ax_decsta` with the literal
`twoPi`, for ring stations 0 and 5. -/
theorem ring_stations_distinct_witness :
    ((0 : ℝ) < Const.twoPi ∧ (Const.twoPi : ℝ) ≤ 2 * Real.pi) ∧
    ∃ pi pj,
      (ringPlacement Real.cos Real.sin Const.twoPi ⟨0, 0, 0⟩ 5 Const.theta0 10 [])[0]?
        = some pi ∧
      (ringPlacement Real.cos Real.sin Const.twoPi ⟨0, 0, 0⟩ 5 Const.theta0 10 [])[5]?
        = some pj ∧
      pi ≠ pj :=
  ⟨const_twoPi_bounds,
    ring_stations_distinct Const.twoPi const_twoPi_bounds.1 const_twoPi_bounds.2 ⟨0, 0, 0⟩ 5
      (by norm_num) Const.theta0 10 (by decide) 0 5 (by decide) (by decide) (by decide)⟩

theorem sin_const_theta0_pos : 0 < Real.sin (Const.theta0 : ℝ) := by
  have h := abs_lt.1 (lt_of_le_of_lt
    (abs_sin_sub_sin_le (Const.theta0 : ℝ) (Real.pi / 8)) theta0_near_pi_div_eight)
  have hs := sin_pi_div_eight_bounds.1
  linarith [h.1]

theorem anchor_ne_of_sin_pos (c : Vector ℝ) (r : ℝ) (hr : 0 < r) (t : ℝ)
    (ht : 0 < Real.sin t) :
    anchorPlacement c r ≠ ⟨c.x + r * Real.cos t, c.y + r * Real.sin t, c.z⟩ := by
  intro heq
  have hy : c.y = c.y + r * Real.sin t := congrArg Vector.y heq
  have : 0 < r * Real.sin t := mul_pos hr ht
  linarith

theorem anchorRingPositions_two {α : Type} [Field α] (cos sin : α → α) (twoPi : α)
    (apLegacyPos apRingPos : Vector α) (r theta0 : α) :
    anchorRingPositions cos sin twoPi apLegacyPos apRingPos r theta0 2
      = [apLegacyPos, apRingPos, anchorPlacement apLegacyPos r,
          ⟨apRingPos.x + r * cos (ringTheta twoPi theta0 1 0),
            apRingPos.y + r * sin (ringTheta twoPi theta0 1 0), apRingPos.z⟩] := by
  have hc : ringCountOf 2 = 1 := by decide
  rw [anchorRingPositions, hc, ringPlacement_eq]
  simp [ringTheta, List.range_succ]

/-- C24: over the reals, for a radius `r > 0` and the offset `pi / 8` (also
for the literal `0.39269908169872414`) the anchor position `(c.x + r, c.y)`
is not the position the ring loop computes for a ring of one station,
`(c.x + r cos (pi/8), c.y + r sin (pi/8))`; in `scenario_coex_ac_be`, with two
station nodes and both access points at `c`, the legacy station and the
802.11be station get different positions, each at distance `r` from `c`. -/
theorem anchor_differs_from_single_ring (twoPi : ℝ) (c : Vector ℝ) (r : ℝ) (hr : 0 < r) :
    (ringPlacement Real.cos Real.sin twoPi c r (Real.pi / 8) 1 [])[0]?
      = some ⟨c.x + r * Real.cos (Real.pi / 8), c.y + r * Real.sin (Real.pi / 8), c.z⟩ ∧
    anchorPlacement c r
      ≠ ⟨c.x + r * Real.cos (Real.pi / 8), c.y + r * Real.sin (Real.pi / 8), c.z⟩ ∧
    (∃ pa pr,
      (anchorRingPositions Real.cos Real.sin twoPi c c r (Real.pi / 8) 2)[2]? = some pa ∧
      (anchorRingPositions Real.cos Real.sin twoPi c c r (Real.pi / 8) 2)[3]? = some pr ∧
      pa ≠ pr ∧
      Real.sqrt ((pa.x - c.x) ^ 2 + (pa.y - c.y) ^ 2) = r ∧
      Real.sqrt ((pr.x - c.x) ^ 2 + (pr.y - c.y) ^ 2) = r) ∧
    (∃ pa pr,
      (anchorRingPositions Real.cos Real.sin Const.twoPi c c r Const.theta0 2)[2]? = some pa ∧
      (anchorRingPositions Real.cos Real.sin Const.twoPi c c r Const.theta0 2)[3]? = some pr ∧
      pa ≠ pr ∧
      Real.sqrt ((pa.x - c.x) ^ 2 + (pa.y - c.y) ^ 2) = r ∧
      Real.sqrt ((pr.x - c.x) ^ 2 + (pr.y - c.y) ^ 2) = r) := by
  have hs8 : 0 < Real.sin (Real.pi / 8) := by
    have := sin_pi_div_eight_bounds.1
    linarith
  have ht : ∀ (tp t0 : ℝ), ringTheta tp t0 1 0 = t0 := by
    intro tp t0; simp [ringTheta]
  have hanchor : Real.sqrt (((anchorPlacement c r).x - c.x) ^ 2
      + ((anchorPlacement c r).y - c.y) ^ 2) = r := by
    simp only [anchorPlacement, add_sub_cancel_left, sub_self]
    norm_num
    exact Real.sqrt_sq (le_of_lt hr)
  have hring : ∀ t : ℝ, Real.sqrt ((c.x + r * Real.cos t - c.x) ^ 2
      + (c.y + r * Real.sin t - c.y) ^ 2) = r := by
    intro t
    rw [add_sub_cancel_left, add_sub_cancel_left, ring_point_sq, Real.sqrt_sq (le_of_lt hr)]
  have hpair : ∀ (tp t0 : ℝ), 0 < Real.sin t0 →
      ∃ pa pr,
        (anchorRingPositions Real.cos Real.sin tp c c r t0 2)[2]? = some pa ∧
        (anchorRingPositions Real.cos Real.sin tp c c r t0 2)[3]? = some pr ∧
        pa ≠ pr ∧
        Real.sqrt ((pa.x - c.x) ^ 2 + (pa.y - c.y) ^ 2) = r ∧
        Real.sqrt ((pr.x - c.x) ^ 2 + (pr.y - c.y) ^ 2) = r := by
    intro tp t0 hpos
    refine ⟨anchorPlacement c r, ⟨c.x + r * Real.cos t0, c.y + r * Real.sin t0, c.z⟩,
      ?_, ?_, anchor_ne_of_sin_pos c r hr t0 hpos, hanchor, hring t0⟩
    · rw [anchorRingPositions_two]; rfl
    · rw [anchorRingPositions_two, ht]; rfl
  refine ⟨?_, anchor_ne_of_sin_pos c r hr _ hs8, hpair twoPi _ hs8,
    hpair Const.twoPi Const.theta0 sin_const_theta0_pos⟩
  rw [ringPlacement_station Real.cos Real.sin twoPi c r (Real.pi / 8) 1 0 (by decide), ht]

/-- C24 at the constants of `scenario_coex_ac_be`: radius 2, access points at
the origin. -/
theorem anchor_differs_from_single_ring_witness :
    (0 : ℝ) < 2 ∧
    anchorPlacement (⟨0, 0, 0⟩ : Vector ℝ) 2
      ≠ ⟨0 + 2 * Real.cos (Real.pi / 8), 0 + 2 * Real.sin (Real.pi / 8), 0⟩ :=
  ⟨by norm_num,
    (anchor_differs_from_single_ring Const.twoPi ⟨0, 0, 0⟩ 2 (by norm_num)).2.1⟩

theorem portLoop_diverges (bound : Nat) (hB : 65536 ≤ bound) :
    ∀ (fuel basePort : Nat) (acc : List Nat), basePort < 65536 →
      portLoop bound fuel basePort acc = none
  | 0, _, _, _ => rfl
  | fuel + 1, basePort, acc, hlt => by
    rw [portLoop, if_pos (by omega)]
    exact portLoop_diverges bound hB fuel _ _ (Nat.mod_lt _ (by norm_num))

/-- C29 as stated fails: for the 32-bit count `n = 2^32 - 9001` and `b = 9001`
the sum `b + n` is not below 65536, yet the loop ends, at once and without an
iteration, because the 32-bit sum wraps to 0. -/
theorem port_loop_termination_counterexample :
    2 ^ 32 - 9001 < 2 ^ 32 ∧ ¬ (9001 + (2 ^ 32 - 9001) ≤ 65535) ∧
      loopPorts 9001 (2 ^ 32 - 9001) 1 = some [] := by
  refine ⟨by norm_num, by norm_num, ?_⟩
  have h : (9001 + (2 ^ 32 - 9001)) % 2 ^ 32 = 0 := by norm_num
  rw [loopPorts, h]
  rfl

/-- C29, as amended: for a start `b ≤ 65535` and a 32-bit count `n`, the port
loop ends with exactly `n` iterations (the ports `b … b + n - 1`) when
`b + n ≤ 65535`; never ends when `65536 ≤ b + n < 2^32`, the 16-bit counter
wrapping from 65535 to 0 below the bound; and ends at once without an
iteration when `b + n ≥ 2^32`, where the 32-bit bound wraps. So when the sum
does not overflow 32 bits it terminates if and only if `b + n ≤ 65535`. -/
theorem port_loop_termination (b n : Nat) (hb : b ≤ 65535) (hn : n < 2 ^ 32) :
    (b + n ≤ 65535 → ∀ fuel, n < fuel →
      ∃ ports, loopPorts b n fuel = some ports ∧ ports.length = n ∧
        ports = List.range' b n) ∧
    (65536 ≤ b + n → b + n < 2 ^ 32 → ∀ fuel, loopPorts b n fuel = none) ∧
    (2 ^ 32 ≤ b + n → ∀ fuel, 0 < fuel → loopPorts b n fuel = some []) ∧
    (b + n < 2 ^ 32 → ((∃ fuel, loopPorts b n fuel ≠ none) ↔ b + n ≤ 65535)) ∧
    (65535 + 1) % 2 ^ 16 = 0 := by
  have hbm : b % 2 ^ 16 = b := Nat.mod_eq_of_lt (by omega)
  have hdiv : 65536 ≤ b + n → b + n < 2 ^ 32 → ∀ fuel, loopPorts b n fuel = none := by
    intro h1 h2 fuel
    rw [loopPorts, Nat.mod_eq_of_lt h2]
    exact portLoop_diverges (b + n) h1 fuel _ _ (Nat.mod_lt _ (by norm_num))
  refine ⟨?_, hdiv, ?_, ?_, by norm_num⟩
  · intro h fuel hf
    exact ⟨_, loopPorts_eq b n h fuel hf, by simp, rfl⟩
  · intro h fuel hf
    obtain ⟨fuel, rfl⟩ : ∃ k, fuel = k + 1 := ⟨fuel - 1, by omega⟩
    have hlt : ¬ b % 2 ^ 16 < (b + n) % 2 ^ 32 := by
      rw [hbm]; omega
    rw [loopPorts, portLoop, if_neg hlt]
  · intro h
    constructor
    · rintro ⟨fuel, hf⟩
      by_contra hgt
      exact hf (hdiv (by omega) h fuel)
    · intro hle
      exact ⟨n + 1, by rw [loopPorts_eq b n hle (n + 1) (by omega)]; simp⟩

/-- C29 amended, at the constants of the programs: `b = 9001`, `n = 10`, where
the loop returns its ten ports (and `b = 9000`, `n = 3` alike). -/
theorem port_loop_termination_witness :
    (9001 + 10 ≤ 65535 ∧ 10 < 11) ∧
    (∃ ports, loopPorts 9001 10 11 = some ports ∧ ports.length = 10 ∧
      ports = List.range' 9001 10) ∧
    (∃ fuel, loopPorts 9000 3 fuel ≠ none) :=
  ⟨⟨by decide, by decide⟩,
    (port_loop_termination 9001 10 (by decide) (by decide)).1 (by decide) 11 (by decide),
    ((port_loop_termination 9000 3 (by decide) (by decide)).2.2.2.1 (by decide)).2
      (by decide)⟩

/-- C30: for a station-node count `N` below `2^32` the ring count is `N - 1`
when `N > 0` and 0 when `N = 0`, never `2^32 - 1`; the allocator then holds
the two access point positions followed by `N` station positions, the anchor
for station node 0 and ring position `k - 1` (of a ring of `N - 1`) for
station node `k ≥ 1`. -/
theorem ring_count_from_container {α : Type} [Field α] (cos sin : α → α) (twoPi : α)
    (apLegacyPos apRingPos : Vector α) (r theta0 : α) (N : Nat) (hN : N < 2 ^ 32) :
    (0 < N → ringCountOf N = N - 1) ∧
    (N = 0 → ringCountOf N = 0) ∧
    ringCountOf N ≠ 2 ^ 32 - 1 ∧
    (anchorRingPositions cos sin twoPi apLegacyPos apRingPos r theta0 N).length = 2 + N ∧
    (0 < N → (anchorRingPositions cos sin twoPi apLegacyPos apRingPos r theta0 N)[2]?
      = some ⟨apLegacyPos.x + r, apLegacyPos.y, apLegacyPos.z⟩) ∧
    (∀ k : Nat, 1 ≤ k → k < N →
      (anchorRingPositions cos sin twoPi apLegacyPos apRingPos r theta0 N)[2 + k]?
        = some ⟨apRingPos.x + r * cos (ringTheta twoPi theta0 (N - 1) (k - 1)),
                apRingPos.y + r * sin (ringTheta twoPi theta0 (N - 1) (k - 1)),
                apRingPos.z⟩) := by
  rcases Nat.eq_zero_or_pos N with h0 | hpos
  · subst h0
    refine ⟨fun h => absurd h (by decide), fun _ => rfl, by decide, rfl,
      fun h => absurd h (by decide), fun k _ hk => absurd hk (by omega)⟩
  · have hc : ringCountOf N = N - 1 := by
      rw [ringCountOf, if_pos hpos, u32Sub_one N hpos hN]
    have hpos' : anchorRingPositions cos sin twoPi apLegacyPos apRingPos r theta0 N
        = [apLegacyPos, apRingPos, anchorPlacement apLegacyPos r]
          ++ (List.range (N - 1)).map (fun (i : Nat) =>
            (⟨apRingPos.x + r * cos (theta0 + twoPi * (i : α) / ((N - 1 : Nat) : α)),
              apRingPos.y + r * sin (theta0 + twoPi * (i : α) / ((N - 1 : Nat) : α)),
              apRingPos.z⟩ : Vector α)) := by
      rw [anchorRingPositions, hc, ringPlacement_eq]
      simp [hpos]
    refine ⟨fun _ => hc, fun h => absurd h (by omega), by rw [hc]; omega, ?_, ?_, ?_⟩
    · rw [hpos']; simp; omega
    · intro _
      rw [hpos']; simp [anchorPlacement]
    · intro k hk1 hkN
      rw [hpos', List.getElem?_append_right (by simp; omega)]
      have hidx : 2 + k - [apLegacyPos, apRingPos, anchorPlacement apLegacyPos r].length
          = k - 1 := by simp; omega
      rw [hidx, List.getElem?_map, List.getElem?_range (by omega)]
      rfl

/-- C30 at `scenario_coex_ac_ax_quadsta` (five station nodes) with the
program's constants over the reals: station node 3 gets ring position 2 of a
ring of four. -/
theorem ring_count_from_container_witness :
    5 < 2 ^ 32 ∧ ringCountOf 5 = 5 - 1 ∧
    (anchorRingPositions Real.cos Real.sin Const.twoPi ⟨0, 0, 0⟩ ⟨0, 0, 0⟩ 5
        Const.theta0 5).length = 2 + 5 ∧
    (anchorRingPositions Real.cos Real.sin Const.twoPi ⟨0, 0, 0⟩ ⟨0, 0, 0⟩ 5
        Const.theta0 5)[2 + 3]?
      = some ⟨0 + 5 * Real.cos (ringTheta Const.twoPi Const.theta0 (5 - 1) (3 - 1)),
              0 + 5 * Real.sin (ringTheta Const.twoPi Const.theta0 (5 - 1) (3 - 1)), 0⟩ :=
  have h := ring_count_from_container Real.cos Real.sin (Const.twoPi : ℝ) ⟨0, 0, 0⟩ ⟨0, 0, 0⟩ 5
    Const.theta0 5 (by norm_num)
  ⟨by norm_num, h.1 (by decide), h.2.2.2.1, h.2.2.2.2.2 3 (by decide) (by decide)⟩

end WifiCoex
